import Mathlib

/-!
Verification of the differential-DFXML matching engine
(`src/dfxml/bin/make_differential_dfxml.py`).

The shallow embedding below mirrors the Python source line by line:
Python dictionaries (which preserve insertion order) are modelled as
association lists, the two-snapshot scan is the composition of phase
functions, and each matching pass is a fold over the relevant key list,
exactly as the source iterates.
-/

namespace DFXMLDiff

/-! ### Ordered dictionaries (Python `dict` semantics) -/

/-- An insertion-ordered dictionary, as Python `dict`: an association list
with unique keys, iterated in insertion order. -/
abbrev Dict (α β : Type) := List (α × β)

namespace Dict

variable {α β : Type} [DecidableEq α]

/-- Lookup, first match (`d[k]` / `d.get(k)`). -/
def get? (d : Dict α β) (k : α) : Option β :=
  match d with
  | [] => none
  | (k', v) :: rest => if k' = k then some v else get? rest k

/-- `k in d`. -/
def hasKey (d : Dict α β) (k : α) : Bool := (get? d k).isSome

/-- `d[k] = v`: replace in place if the key exists, else append at the end
(Python dicts keep first-insertion position on overwrite). -/
def set (d : Dict α β) (k : α) (v : β) : Dict α β :=
  match d with
  | [] => [(k, v)]
  | (k', v') :: rest => if k' = k then (k', v) :: rest else (k', v') :: set rest k v

/-- `d.pop(k)`, the removal part: drop the first binding of `k`. -/
def erase (d : Dict α β) (k : α) : Dict α β :=
  match d with
  | [] => []
  | (k', v') :: rest => if k' = k then rest else (k', v') :: erase rest k

/-- `list(d.keys())`, in insertion order. -/
def keys (d : Dict α β) : List α := d.map (fun kv => kv.1)

/-- `defaultdict(list)` append: `d[k].append(v)`. -/
def push (d : Dict α (List β)) (k : α) (v : β) : Dict α (List β) :=
  match get? d k with
  | some l => set d k (l ++ [v])
  | none => set d k [v]

end Dict

/-! ### Data model -/

/-- The identity key of a file: (partition, inode, filename),
any component possibly nulled (line 232-236 of the source). -/
abbrev FKey := Option Nat × Option Nat × Option String

/-- A file-system object observation.  Field names follow
`Objects.FileObject`; unset Python attributes are `none`/`false`.
The attributes kept are the ones the differential engine reads, plus the
comparable metadata attributes the comparison capability reports on. -/
structure FileObject where
  partition : Option Nat := none
  inode : Option Nat := none
  filename : Option String := none
  alloc : Bool := false
  filesize : Option Nat := none
  mtime : Option Nat := none
  atime : Option Nat := none
  ctime : Option Nat := none
  crtime : Option Nat := none
  md5 : Option String := none
  sha1 : Option String := none
  sha256 : Option String := none
  uid : Option Nat := none
  deriving DecidableEq, Repr, Inhabited

/-- `Objects.FileObject()`: the placeholder object emitted for pure
deletions (source lines 479, 485); every attribute unset. -/
def emptyFileObject : FileObject := {}

/-- Helper: the singleton `{s}` when `b` holds, else `∅`. -/
def dset (b : Prop) [Decidable b] (s : String) : Finset String :=
  if b then {s} else ∅

/-- Modelled from the spec: the comparison capability
`compare_to_original(other, ignore_set)` of `Objects.FileObject` (the
`Objects.py` library is not part of the sources under verification).  Per
the spec (sections 4.3 and 6) it populates `diffs` with the set of
changed-attribute names, excluding the ignored properties. -/
def compareToOriginal (original fo : FileObject) (ignores : Finset String) : Finset String :=
  (dset (original.partition ≠ fo.partition) "partition" ∪
   dset (original.inode ≠ fo.inode) "inode" ∪
   dset (original.filename ≠ fo.filename) "filename" ∪
   dset (original.filesize ≠ fo.filesize) "filesize" ∪
   dset (original.mtime ≠ fo.mtime) "mtime" ∪
   dset (original.atime ≠ fo.atime) "atime" ∪
   dset (original.ctime ≠ fo.ctime) "ctime" ∪
   dset (original.crtime ≠ fo.crtime) "crtime" ∪
   dset (original.md5 ≠ fo.md5) "md5" ∪
   dset (original.sha1 ≠ fo.sha1) "sha1" ∪
   dset (original.sha256 ≠ fo.sha256) "sha256" ∪
   dset (original.uid ≠ fo.uid) "uid") \ ignores

/-- Configuration surface of `make_differential_dfxml` (source lines 61-71). -/
structure DiffParams where
  diff_mode : String := "all"
  annotate_matches : Bool := false
  rename_requires_hash : Bool := false
  retain_unchanged : Bool := false
  ignore_properties : Finset String := ∅

/-- The `idifference` attribute mask (source lines 89-102). -/
def diffMaskSet (diff_mode : String) : Finset String :=
  if diff_mode = "idifference" then
    ({"atime", "byte_runs", "crtime", "ctime", "filename", "filesize", "md5",
      "mtime", "sha1"} : Finset String)
  else ∅

/-- The identity key of a file record, with components nulled by the
ignore-properties configuration (source lines 232-236). -/
def identityKey (ignore_properties : Finset String) (fo : FileObject) : FKey :=
  ( if "partition" ∈ ignore_properties then none else fo.partition,
    if "inode" ∈ ignore_properties then none else fo.inode,
    if "filename" ∈ ignore_properties then none else fo.filename )

/-- A record as placed in the differential output: the (post-side) object,
the original it was linked to (`original_fileobject`), its populated
`diffs` set, and its `annos` annotation set. -/
structure OutFile where
  obj : FileObject
  original : Option FileObject := none
  diffs : Finset String := ∅
  annos : Finset String := ∅
  deriving DecidableEq, Inhabited

/-! ### Default filename filter -/

/-- `os.path.basename` for POSIX paths: the part after the last slash. -/
def basename (fn : String) : String :=
  String.mk (fn.data.foldl (fun acc c => if c = '/' then [] else acc ++ [c]) [])

/-- The recognized pseudo-file names filtered by default. -/
def pseudoNames : List String := [".", "..", "$FAT1", "$FAT2", "$OrphanFiles"]

/-- `ignorable_name` (source lines 53-59): filter out recognized
pseudo-file names; a missing filename is never filtered. -/
def ignorable_name (fn : Option String) : Bool :=
  match fn with
  | none => false
  | some s => pseudoNames.contains (basename s)

/-! ### Phase 1: scanning the baseline snapshot (source lines 146-246) -/

/-- One baseline record (source lines 213-246, `infile == pre` branch):
skip filtered names, route unallocated records to the `unalloc` map and
allocated ones to the `live` map. -/
def stepPre (P : DiffParams) (ignf : Option String → Bool)
    (st : Dict FKey FileObject × Dict FKey (List FileObject)) (fo : FileObject) :
    Dict FKey FileObject × Dict FKey (List FileObject) :=
  if ignf fo.filename then st
  else
    let key := identityKey P.ignore_properties fo
    if !fo.alloc then (st.1, Dict.push st.2 key fo)
    else (Dict.set st.1 key fo, st.2)

/-- The whole baseline scan: `old_fis` and `old_fis_unalloc` after the
first input file. -/
def scanPre (P : DiffParams) (ignf : Option String → Bool) (pre : List FileObject) :
    Dict FKey FileObject × Dict FKey (List FileObject) :=
  pre.foldl (stepPre P ignf) ([], [])

/-! ### Phase 2: scanning the second snapshot (source lines 213-271) -/

/-- State while scanning the second snapshot. -/
structure StateB where
  old_fis : Dict FKey FileObject
  new_fis : Dict FKey FileObject
  new_unalloc : Dict FKey (List FileObject)
  changed : List OutFile
  unchanged : List OutFile

/-- One second-snapshot record (source lines 213-271): direct identity
lookup in the baseline `live` map; on a hit, compare, subtract the ignore
set, apply the mask when configured, and classify changed/unchanged; on a
miss, hold as a candidate new record. -/
def stepPost (P : DiffParams) (ignf : Option String → Bool) (st : StateB)
    (fo : FileObject) : StateB :=
  if ignf fo.filename then st
  else
    let key := identityKey P.ignore_properties fo
    if !fo.alloc then { st with new_unalloc := Dict.push st.new_unalloc key fo }
    else
      match Dict.get? st.old_fis key with
      | some old_fobj =>
        let ds0 := compareToOriginal old_fobj fo P.ignore_properties
        let ds1 := ds0 \ P.ignore_properties
        let ds2 := if diffMaskSet P.diff_mode ≠ ∅ then ds1 ∩ diffMaskSet P.diff_mode else ds1
        let entry : OutFile := { obj := fo, original := some old_fobj, diffs := ds0 }
        if ds2 ≠ ∅ then
          { st with old_fis := Dict.erase st.old_fis key, changed := st.changed ++ [entry] }
        else if P.retain_unchanged then
          { st with old_fis := Dict.erase st.old_fis key, unchanged := st.unchanged ++ [entry] }
        else { st with old_fis := Dict.erase st.old_fis key }
      | none => { st with new_fis := Dict.set st.new_fis key fo }

/-- The whole second-snapshot scan. -/
def scanPost (P : DiffParams) (ignf : Option String → Bool)
    (old_fis : Dict FKey FileObject) (post : List FileObject) : StateB :=
  post.foldl (stepPost P ignf) ⟨old_fis, [], [], [], []⟩

/-! ### Rename detection (source lines 284-330) -/

/-- `_make_name_map` (source lines 287-300): map (partition, inode) to the
set of filenames observed at that address — the set modelled as a
duplicate-free list in first-insertion order. -/
def makeNameMap (d : Dict FKey FileObject) :
    Dict (Option Nat × Option Nat) (List (Option String)) :=
  d.keys.foldl
    (fun rd k =>
      match Dict.get? rd (k.1, k.2.1) with
      | some l => if k.2.2 ∈ l then rd else Dict.set rd (k.1, k.2.1) (l ++ [k.2.2])
      | none => Dict.set rd (k.1, k.2.1) [k.2.2])
    []

/-- State of the rename loop. -/
structure RenameState where
  old_fis : Dict FKey FileObject
  new_fis : Dict FKey FileObject
  renamed : List OutFile

/-- One iteration of the rename loop (source lines 303-326): match only
when both sides hold exactly one filename at the (partition, inode)
address, and — when required — the SHA-1 hashes agree. -/
def renameStep (P : DiffParams)
    (old_inode_names new_inode_names : Dict (Option Nat × Option Nat) (List (Option String)))
    (st : RenameState) (k : Option Nat × Option Nat) : RenameState :=
  match Dict.get? new_inode_names k with
  | some [nn] =>
    match Dict.get? old_inode_names k with
    | some [onm] =>
      match Dict.get? st.old_fis (k.1, k.2, onm), Dict.get? st.new_fis (k.1, k.2, nn) with
      | some old_fobj, some new_obj =>
        if P.rename_requires_hash ∧ old_fobj.sha1 ≠ new_obj.sha1 then st
        else
          { old_fis := Dict.erase st.old_fis (k.1, k.2, onm),
            new_fis := Dict.erase st.new_fis (k.1, k.2, nn),
            renamed := st.renamed ++
              [{ obj := new_obj, original := some old_fobj,
                 diffs := compareToOriginal old_fobj new_obj P.ignore_properties }] }
      | _, _ => st
    | _ => st
  | _ => st

/-- The rename-detection pass. -/
def renamePass (P : DiffParams) (old_fis new_fis : Dict FKey FileObject) : RenameState :=
  let old_inode_names := makeNameMap old_fis
  let new_inode_names := makeNameMap new_fis
  (Dict.keys new_inode_names).foldl (renameStep P old_inode_names new_inode_names)
    ⟨old_fis, new_fis, []⟩

/-! ### Inode-change detection (source lines 332-364) -/

/-- `_make_inode_map` (source lines 334-349): map (partition, filename) to
an inode; on a duplicate path the later entry wins (the source warns and
overwrites). -/
def makeInodeMap (d : Dict FKey FileObject) :
    Dict (Option Nat × Option String) (Option Nat) :=
  d.keys.foldl (fun rd k => Dict.set rd (k.1, k.2.2) k.2.1) []

/-- State of the inode-change loop. -/
structure InodeState where
  old_fis : Dict FKey FileObject
  new_fis : Dict FKey FileObject
  changed : List OutFile

/-- One iteration of the inode-change loop (source lines 352-361). -/
def inodeStep (P : DiffParams)
    (old_name_inodes new_name_inodes : Dict (Option Nat × Option String) (Option Nat))
    (st : InodeState) (k : Option Nat × Option String) : InodeState :=
  match Dict.get? old_name_inodes k, Dict.get? new_name_inodes k with
  | some oi, some ni =>
    match Dict.get? st.old_fis (k.1, oi, k.2), Dict.get? st.new_fis (k.1, ni, k.2) with
    | some old_fobj, some new_obj =>
      { old_fis := Dict.erase st.old_fis (k.1, oi, k.2),
        new_fis := Dict.erase st.new_fis (k.1, ni, k.2),
        changed := st.changed ++
          [{ obj := new_obj, original := some old_fobj,
             diffs := compareToOriginal old_fobj new_obj P.ignore_properties }] }
    | _, _ => st
  | _, _ => st

/-- The inode-change pass; appends onto the already-accumulated changed
list (source appends to `fileobjects_changed`). -/
def inodePass (P : DiffParams) (old_fis new_fis : Dict FKey FileObject)
    (changed : List OutFile) : InodeState :=
  let old_name_inodes := makeInodeMap old_fis
  let new_name_inodes := makeInodeMap new_fis
  (Dict.keys new_name_inodes).foldl (inodeStep P old_name_inodes new_name_inodes)
    ⟨old_fis, new_fis, changed⟩

/-! ### Unallocated matching and deletion detection (source lines 367-406) -/

/-- State of the unallocated-matching loop. -/
structure UnallocState where
  old_fis : Dict FKey FileObject
  old_unalloc : Dict FKey (List FileObject)
  new_unalloc : Dict FKey (List FileObject)
  changed : List OutFile
  unchanged : List OutFile
  deleted : List OutFile

/-- One iteration of the unallocated loop (source lines 370-400): a
single-observation key on the B side is content-matched when the key is in
the A-side unalloc map with a single observation there too; otherwise,
when the key is absent from the A-side unalloc map but present in the
surviving live map, the pair is a detected deletion. -/
def unallocStep (P : DiffParams) (st : UnallocState) (key : FKey) : UnallocState :=
  match Dict.get? st.new_unalloc key with
  | some [new_obj] =>
    match Dict.get? st.old_unalloc key with
    | some ol =>
      match ol with
      | [old_fobj] =>
        let ds0 := compareToOriginal old_fobj new_obj P.ignore_properties
        let m := diffMaskSet P.diff_mode
        let ds1 := ds0 \ m
        let ds2 := if m ≠ ∅ then ds1 ∩ m else ds1
        let entry : OutFile := { obj := new_obj, original := some old_fobj, diffs := ds0 }
        let st' := { st with old_unalloc := Dict.set st.old_unalloc key [],
                             new_unalloc := Dict.set st.new_unalloc key [] }
        if ds2 ≠ ∅ then { st' with changed := st'.changed ++ [entry] }
        else if P.retain_unchanged then { st' with unchanged := st'.unchanged ++ [entry] }
        else st'
      | _ => st
    | none =>
      match Dict.get? st.old_fis key with
      | some old_fobj =>
        { st with old_fis := Dict.erase st.old_fis key,
                  new_unalloc := Dict.set st.new_unalloc key [],
                  deleted := st.deleted ++
                    [{ obj := new_obj, original := some old_fobj,
                       diffs := compareToOriginal old_fobj new_obj P.ignore_properties }] }
      | none => st
  | _ => st

/-- The unallocated-matching pass, a fold over the B-side unalloc keys. -/
def unallocPass (P : DiffParams) (old_fis : Dict FKey FileObject)
    (old_unalloc new_unalloc : Dict FKey (List FileObject))
    (changed unchanged : List OutFile) : UnallocState :=
  (Dict.keys new_unalloc).foldl (unallocStep P)
    ⟨old_fis, old_unalloc, new_unalloc, changed, unchanged, []⟩

/-! ### Output assembly (source lines 414-508) -/

/-- A file is only considered modified when its contents changed
(source line 447). -/
def content_diffs : Finset String := {"md5", "sha1", "sha256"}

/-- Annotations for a detected deletion (source lines 466-475). -/
def annotateDeleted (annotate_matches : Bool) (e : OutFile) : OutFile :=
  { e with annos := (e.annos ∪ dset (e.diffs \ content_diffs ≠ ∅) "changed" ∪
      dset (content_diffs ∩ e.diffs ≠ ∅) "modified" ∪
      dset ("filename" ∈ e.diffs) "renamed" ∪ {"deleted"} ∪
      dset annotate_matches "matched") }

/-- Annotations for a renamed record (source lines 489-497). -/
def annotateRenamed (annotate_matches : Bool) (e : OutFile) : OutFile :=
  { e with annos := (e.annos ∪ dset (content_diffs ∩ e.diffs ≠ ∅) "modified" ∪
      dset (e.diffs \ content_diffs ≠ ∅) "changed" ∪ {"renamed"} ∪
      dset annotate_matches "matched") }

/-- Annotations for a changed record (source lines 498-505). -/
def annotateChanged (annotate_matches : Bool) (e : OutFile) : OutFile :=
  { e with annos := (e.annos ∪ dset (content_diffs ∩ e.diffs ≠ ∅) "modified" ∪
      dset (e.diffs \ content_diffs ≠ ∅) "changed" ∪
      dset annotate_matches "matched") }

/-- The classified output: the five classification sets, each in the order
the source appends them to the document (lines 457-508). -/
structure DiffResult where
  newFiles : List OutFile
  deletedFiles : List OutFile
  renamedFiles : List OutFile
  changedFiles : List OutFile
  unchangedFiles : List OutFile
  deriving DecidableEq

/-- A leftover new record as appended to the output (source lines 457-465). -/
def newOut (fi : FileObject) : OutFile :=
  { obj := fi, annos := ({"new"} : Finset String) }

/-- A deletion placeholder (source lines 477-488): a fresh empty object
linked to the original, annotated deleted. -/
def deletedPlaceholder (ofi : FileObject) : OutFile :=
  { obj := emptyFileObject, original := some ofi, annos := ({"deleted"} : Finset String) }

/-- Output assembly (source lines 457-508): annotate and collect every
record; leftovers of the baseline maps become deletion placeholders. -/
def assemble (P : DiffParams) (new_fis : Dict FKey FileObject)
    (new_unalloc : Dict FKey (List FileObject))
    (old_fis : Dict FKey FileObject) (old_unalloc : Dict FKey (List FileObject))
    (deletedL renamedL changedL unchangedL : List OutFile) : DiffResult :=
  { newFiles :=
      new_fis.map (fun kv => newOut kv.2) ++
      (new_unalloc.map (fun kv => kv.2.map newOut)).flatten,
    deletedFiles :=
      deletedL.map (annotateDeleted P.annotate_matches) ++
      old_fis.map (fun kv => deletedPlaceholder kv.2) ++
      (old_unalloc.map (fun kv => kv.2.map deletedPlaceholder)).flatten,
    renamedFiles := renamedL.map (annotateRenamed P.annotate_matches),
    changedFiles := changedL.map (annotateChanged P.annotate_matches),
    unchangedFiles := unchangedL.map (fun e =>
      { e with annos := e.annos ∪ dset P.annotate_matches "matched" }) }

/-! ### The full pipeline (source lines 61-511, file-record part) -/

/-- `make_differential_dfxml`, restricted to its file-record matching:
the file records of the two snapshots come in with their `partition`
ordinal already normalized (the volume machinery is embedded separately
below). -/
def make_differential_dfxml (ignf : Option String → Bool) (P : DiffParams)
    (pre post : List FileObject) : DiffResult :=
  let a := scanPre P ignf pre
  let stB := scanPost P ignf a.1 post
  let rn := renamePass P stB.old_fis stB.new_fis
  let ino := inodePass P rn.old_fis rn.new_fis stB.changed
  let ua := unallocPass P ino.old_fis a.2 stB.new_unalloc ino.changed stB.unchanged
  assemble P ino.new_fis ua.new_unalloc ua.old_fis ua.old_unalloc
    ua.deleted rn.renamed ua.changed ua.unchanged

/-! ### Volume matching (source lines 40-51, 136-208, 434-441) -/

/-- A logical volume observation.  Only the attributes the matching
machinery reads are kept. -/
structure VolumeObject where
  partition_offset : Option Nat := none
  ftype_str : Option String := none
  deriving DecidableEq, Repr

/-- Character-wise lower-casing of a string (Python `str.lower`). -/
def strLower (s : String) : String := String.mk (s.data.map Char.toLower)

/-- `_lower_ftype_str` (source lines 40-51): normalize the file-system
label by lower-casing it; a missing label passes through. -/
def lower_ftype_str (vo : VolumeObject) : Option String :=
  vo.ftype_str.map strLower

/-- The volume key: (partition byte offset, lower-cased file-system type)
(source lines 136-144). -/
abbrev VKey := Nat × Option String

/-- The volume-matcher state: the three classification maps plus the
encounter-order map (source lines 139-144). -/
structure VolState where
  old_volumes : Dict VKey VolumeObject
  new_volumes : Dict VKey VolumeObject
  matched_volumes : Dict VKey VolumeObject
  enc : Dict VKey Nat
  deriving DecidableEq, Repr

/-- One incoming volume record (source lines 173-208).  A missing
partition offset raises (line 180).  A key found in the old map is popped
and moved to matched; otherwise the record is inserted as new and the
encounter-order ordinal recorded as the sum of the three map sizes after
insertion (line 203; the truthiness dance on `old_volumes` reduces to its
length). -/
def volStep (st : VolState) (vo : VolumeObject) : Except String VolState :=
  match vo.partition_offset with
  | none => .error "volume missing partition_offset"
  | some offset =>
    let key : VKey := (offset, lower_ftype_str vo)
    if st.old_volumes ≠ [] ∧ (Dict.get? st.old_volumes key).isSome then
      .ok { st with old_volumes := Dict.erase st.old_volumes key,
                    matched_volumes := Dict.set st.matched_volumes key vo }
    else
      let new' := Dict.set st.new_volumes key vo
      .ok { st with new_volumes := new',
                    enc := Dict.set st.enc key
                      (new'.length + st.old_volumes.length + st.matched_volumes.length) }

/-- Scan one snapshot of volume records. -/
def volScan (st : VolState) (vols : List VolumeObject) : Except String VolState :=
  match vols with
  | [] => .ok st
  | vo :: rest =>
    match volStep st vo with
    | .error e => .error e
    | .ok st' => volScan st' rest

/-- The per-snapshot rotation (source lines 152-157): the old map becomes
the previous new map folded together with the matched map — previous
deleted volumes are discarded. -/
def volRotate (st : VolState) : VolState :=
  { old_volumes := st.matched_volumes.foldl (fun o kv => Dict.set o kv.1 kv.2) st.new_volumes,
    new_volumes := [],
    matched_volumes := [],
    enc := st.enc }

/-- The two-snapshot volume matching (the volume strand of the
`for infile in [pre, post]` loop). -/
def volProcess (pre post : List VolumeObject) : Except String VolState :=
  match volScan (volRotate ⟨[], [], [], []⟩) pre with
  | .error e => .error e
  | .ok st1 => volScan (volRotate st1) post

/-- The Output Assembler appender loop over one list of volume-map entries
(source lines 434-441): look up each key at its encounter ordinal; raise
when the ordinal was already taken. -/
def addAppenders (enc : Dict VKey Nat) (app : Dict Nat VolumeObject) :
    List (VKey × VolumeObject) → Except String (Dict Nat VolumeObject)
  | [] => .ok app
  | (k, v) :: rest =>
    match Dict.get? enc k with
    | none => .error "encounter order missing for volume key"
    | some veo =>
      if (Dict.get? app veo).isSome then
        .error "This pair is already in the appenders dictionary, which was supposed to be distinct."
      else addAppenders enc (Dict.set app veo v) rest

/-- The volume routing of the Output Assembler: iterate the new, matched
and deleted maps in that order (source line 434). -/
def buildAppenders (st : VolState) : Except String (Dict Nat VolumeObject) :=
  addAppenders st.enc [] (st.new_volumes ++ st.matched_volumes ++ st.old_volumes)

/-- Volume matching followed by output routing. -/
def volAssemble (pre post : List VolumeObject) : Except String (Dict Nat VolumeObject) :=
  match volProcess pre post with
  | .error e => .error e
  | .ok st => buildAppenders st

/-- Whether an `Except` result is the error case. -/
def isError : Except String (Dict Nat VolumeObject) → Bool
  | .error _ => true
  | .ok _ => false

/-- The encounter-order keys of a successful volume-matching run. -/
def encKeys : Except String VolState → List VKey
  | .ok st => Dict.keys st.enc
  | .error _ => []

/-! ### Observables used to state the claims -/

/-- The values of a live-file map. -/
def fvals (m : Dict FKey FileObject) : List FileObject := m.map (fun kv => kv.2)

/-- All records held in an unalloc map. -/
def uvals (u : Dict FKey (List FileObject)) : List FileObject :=
  (u.map (fun kv => kv.2)).flatten

/-- The allocated originals carried by a list of output records. -/
def origsA (l : List OutFile) : List FileObject :=
  (l.filterMap (fun e => e.original)).filter (fun f => f.alloc)

/-- The allocated objects carried by a list of output records. -/
def objsA (l : List OutFile) : List FileObject :=
  (l.map (fun e => e.obj)).filter (fun f => f.alloc)

/-- All records of a differential result, in output order. -/
def allEntries (r : DiffResult) : List OutFile :=
  r.newFiles ++ r.deletedFiles ++ r.renamedFiles ++ r.changedFiles ++ r.unchangedFiles

/-- The input records that enter identity matching as allocated files:
not filtered by name, and allocated. -/
def allocFiltered (ignf : Option String → Bool) (l : List FileObject) : List FileObject :=
  l.filter (fun f => !(ignf f.filename) && f.alloc)

/-- The input records that enter identity matching as unallocated files. -/
def unallocFiltered (ignf : Option String → Bool) (l : List FileObject) : List FileObject :=
  l.filter (fun f => !(ignf f.filename) && !f.alloc)

/-- Every record of the list is allocated. -/
def allAlloc (l : List FileObject) : Prop := ∀ f ∈ l, f.alloc = true

/-- Every record of the list is unallocated. -/
def allUnalloc (l : List FileObject) : Prop := ∀ f ∈ l, f.alloc = false

/-- The effective diff as the spec defines it (section 4.3): subtract the
ignore set from the raw changed-attribute set; when a mask set is
configured, intersect with it. -/
def specEffectiveDiff (raw ignores mask : Finset String) : Finset String :=
  if mask ≠ ∅ then (raw \ ignores) ∩ mask else raw \ ignores

/-- The filtered diff set the direct-lookup pass computes (source lines
256-259): subtract the ignore set from the populated diffs, then intersect
with the mask set when one is configured. -/
def filteredDiff (P : DiffParams) (old_fobj fo : FileObject) : Finset String :=
  if diffMaskSet P.diff_mode ≠ ∅ then
    (compareToOriginal old_fobj fo P.ignore_properties \ P.ignore_properties) ∩
      diffMaskSet P.diff_mode
  else compareToOriginal old_fobj fo P.ignore_properties \ P.ignore_properties

/-- The output record built for a matched pair: the post-side object
linked to its original, with the populated diff set. -/
def matchedEntry (P : DiffParams) (old_fobj fo : FileObject) : OutFile :=
  { obj := fo, original := some old_fobj,
    diffs := compareToOriginal old_fobj fo P.ignore_properties }

/-- What it takes for an output record to be a legitimate rename pairing:
some (partition, inode) address carries exactly one filename on each side
of the name maps, the record is the matched pair of two records, and when
hash confirmation is required their SHA-1 values agree. -/
def renameCandidate (P : DiffParams)
    (old_inode_names new_inode_names : Dict (Option Nat × Option Nat) (List (Option String)))
    (e : OutFile) : Prop :=
  ∃ (k : Option Nat × Option Nat) (onm nn : Option String) (old_fobj new_obj : FileObject),
    Dict.get? new_inode_names k = some [nn] ∧
    Dict.get? old_inode_names k = some [onm] ∧
    e = matchedEntry P old_fobj new_obj ∧
    (P.rename_requires_hash = true → old_fobj.sha1 = new_obj.sha1)

/-- Lower-casing of an optional file-system label. -/
def optLower (o : Option String) : Option String := o.map strLower

/-- Two volume records that agree up to letter case of the file-system
label. -/
def VolEquiv (a b : VolumeObject) : Prop :=
  a.partition_offset = b.partition_offset ∧ optLower a.ftype_str = optLower b.ftype_str

/-- Two volume maps agreeing entrywise: identical keys, case-equivalent
records. -/
def DVolEquiv (d e : Dict VKey VolumeObject) : Prop :=
  List.Forall₂ (fun x y => x.1 = y.1 ∧ VolEquiv x.2 y.2) d e

/-- Two volume-matcher states with the same match result: the same keys in
each classification map, case-equivalent records, and identical
encounter-order ordinals. -/
def StEquiv (s t : VolState) : Prop :=
  DVolEquiv s.old_volumes t.old_volumes ∧ DVolEquiv s.new_volumes t.new_volumes ∧
  DVolEquiv s.matched_volumes t.matched_volumes ∧ s.enc = t.enc

/-- Same-shaped results: both runs fail, or both succeed with the same
match result. -/
def ExEquiv : Except String VolState → Except String VolState → Prop
  | .error _, .error _ => True
  | .ok s, .ok t => StEquiv s t
  | _, _ => False

/-! ### Concrete inputs used by the claims -/

/-- An allocated record at partition 0, inode 5. -/
def exA : FileObject :=
  { partition := some 0, inode := some 5, filename := some "a.txt", alloc := true,
    uid := some 1, mtime := some 100, sha1 := some "h1" }

/-- `exA` with a different owner id only. -/
def exA_uid : FileObject := { exA with uid := some 2 }

/-- `exA` with a different mtime only (a duplicate-key sibling of `exA`). -/
def exA_mtime : FileObject := { exA with mtime := some 999 }

/-- `exA` with a different mtime and a different sha256. -/
def exA_mtime_sha256 : FileObject := { exA with mtime := some 999, sha256 := some "s2" }

/-- An unallocated record at partition 0, inode 5. -/
def exU : FileObject :=
  { partition := some 0, inode := some 5, filename := some "u.txt", alloc := false,
    mtime := some 100 }

/-- `exU` with a different mtime only. -/
def exU_mtime : FileObject := { exU with mtime := some 200 }

/-- Two files sharing inode 5 in the baseline. -/
def ex2a : FileObject := { partition := some 0, inode := some 5, filename := some "a", alloc := true }

/-- Second baseline file at inode 5. -/
def ex2b : FileObject := { partition := some 0, inode := some 5, filename := some "b", alloc := true }

/-- Two files sharing inode 5 in the second snapshot. -/
def ex2c : FileObject := { partition := some 0, inode := some 5, filename := some "c", alloc := true }

/-- Second second-snapshot file at inode 5. -/
def ex2d : FileObject := { partition := some 0, inode := some 5, filename := some "d", alloc := true }

/-- The rename scenario: baseline name. -/
def exR1 : FileObject :=
  { partition := some 0, inode := some 5, filename := some "a.txt", alloc := true, sha1 := some "H1" }

/-- The rename scenario: second-snapshot name. -/
def exR2 : FileObject :=
  { partition := some 0, inode := some 5, filename := some "b.txt", alloc := true, sha1 := some "H1" }

/-- C6 scenario: the allocated baseline record at the shared key. -/
def exK : FileObject :=
  { partition := some 0, inode := some 7, filename := some "k", alloc := true }

/-- C6 scenario: first baseline unallocated observation at the shared key. -/
def exKu1 : FileObject :=
  { partition := some 0, inode := some 7, filename := some "k", alloc := false, mtime := some 1 }

/-- C6 scenario: second baseline unallocated observation. -/
def exKu2 : FileObject :=
  { partition := some 0, inode := some 7, filename := some "k", alloc := false, mtime := some 2 }

/-- C6 scenario: the single second-snapshot unallocated observation. -/
def exKuB : FileObject :=
  { partition := some 0, inode := some 7, filename := some "k", alloc := false, mtime := some 3 }

/-- A concrete volume record. -/
def exV : VolumeObject := { partition_offset := some 0, ftype_str := some "ntfs" }

/-- The same volume with an upper-case file-system label. -/
def exVU : VolumeObject := { partition_offset := some 0, ftype_str := some "NTFS" }

/-- The idifference configuration retaining unchanged records. -/
def Pidiff : DiffParams := { diff_mode := "idifference", retain_unchanged := true }

/-- The default configuration. -/
def Pall : DiffParams := {}

/-- The default configuration retaining unchanged records. -/
def PallR : DiffParams := { retain_unchanged := true }

/-! ### Dictionary lemmas -/

namespace Dict

variable {α β : Type} [DecidableEq α]

theorem get?_set_self (d : Dict α β) (k : α) (v : β) : get? (set d k v) k = some v := by
  induction d with
  | nil => simp [get?, set]
  | cons kv rest ih =>
    by_cases h : kv.1 = k
    · simp [get?, set, h]
    · simp [get?, set, h, ih]

theorem get?_set_ne (d : Dict α β) {k k' : α} (v : β) (h : k ≠ k') :
    get? (set d k v) k' = get? d k' := by
  induction d with
  | nil => simp [get?, set, h]
  | cons kv rest ih =>
    by_cases hk : kv.1 = k
    · simp [get?, set, hk, h]
    · simp only [set, if_neg hk, get?]
      by_cases hk' : kv.1 = k'
      · simp [hk']
      · simp [hk', ih]

theorem get?_erase_ne (d : Dict α β) {k k' : α} (h : k ≠ k') :
    get? (erase d k) k' = get? d k' := by
  induction d with
  | nil => simp [erase]
  | cons kv rest ih =>
    by_cases hk : kv.1 = k
    · simp [erase, get?, hk, h]
    · simp only [erase, if_neg hk, get?]
      by_cases hk' : kv.1 = k'
      · simp [hk']
      · simp [hk', ih]

theorem get?_push_ne (d : Dict α (List β)) {k k' : α} (v : β) (h : k ≠ k') :
    get? (push d k v) k' = get? d k' := by
  unfold push
  cases get? d k <;> exact get?_set_ne d _ h

theorem get?_eq_none_iff {d : Dict α β} {k : α} :
    get? d k = none ↔ k ∉ keys d := by
  induction d with
  | nil => simp [get?, keys]
  | cons kv rest ih =>
    have hkeys : keys (kv :: rest) = kv.1 :: keys rest := rfl
    by_cases h : kv.1 = k
    · simp [get?, hkeys, h]
    · simp only [get?, if_neg h, hkeys, List.mem_cons, ih]
      constructor
      · rintro hnk (rfl | hm)
        · exact h rfl
        · exact hnk hm
      · intro hnk hm
        exact hnk (Or.inr hm)

theorem mem_keys_of_get?_eq_some {d : Dict α β} {k : α} {v : β} (h : get? d k = some v) :
    k ∈ keys d := by
  by_contra hk
  rw [get?_eq_none_iff.mpr hk] at h
  exact Option.noConfusion h

theorem set_eq_append_of_get?_none {d : Dict α β} {k : α} (v : β) (h : get? d k = none) :
    set d k v = d ++ [(k, v)] := by
  induction d with
  | nil => rfl
  | cons kv rest ih =>
    by_cases hk : kv.1 = k
    · simp [get?, hk] at h
    · simp only [get?, if_neg hk] at h
      simp [set, hk, ih h]

theorem keys_set_of_get?_none {d : Dict α β} {k : α} (v : β) (h : get? d k = none) :
    keys (set d k v) = keys d ++ [k] := by
  rw [set_eq_append_of_get?_none v h]
  simp [keys]

theorem get?_append (d e : Dict α β) (k : α) :
    get? (d ++ e) k = match get? d k with | some v => some v | none => get? e k := by
  induction d with
  | nil => simp [get?]
  | cons kv rest ih =>
    by_cases h : kv.1 = k
    · simp [get?, h]
    · simp [get?, h, ih]

theorem erase_append_left {d : Dict α β} {k : α} (e : Dict α β) (h : k ∈ keys d) :
    erase (d ++ e) k = erase d k ++ e := by
  induction d with
  | nil => simp [keys] at h
  | cons kv rest ih =>
    by_cases hk : kv.1 = k
    · simp [erase, hk]
    · simp only [keys, List.map_cons, List.mem_cons] at h
      rcases h with h | h
      · exact absurd h.symm hk
      · simp [erase, hk, ih (by simpa [keys] using h)]

theorem set_append_left {d : Dict α β} {k : α} (e : Dict α β) (v : β) (h : k ∈ keys d) :
    set (d ++ e) k v = set d k v ++ e := by
  induction d with
  | nil => simp [keys] at h
  | cons kv rest ih =>
    by_cases hk : kv.1 = k
    · simp [set, hk]
    · simp only [keys, List.map_cons, List.mem_cons] at h
      rcases h with h | h
      · exact absurd h.symm hk
      · simp [set, hk, ih (by simpa [keys] using h)]

end Dict

/-! ## Claim C10: the default ignore-filename predicate -/

/-- C10: `ignorable_name` returns true exactly when the basename of the
given path is one of the five recognized pseudo-names, returns false on a
missing filename, and a record with no filename therefore always enters
identity matching (it is routed into the identity maps, never skipped). -/
theorem ignorable_name_spec :
    (∀ s : String, ignorable_name (some s) = true ↔ basename s ∈ pseudoNames) ∧
    ignorable_name none = false ∧
    (∀ (P : DiffParams) (st : Dict FKey FileObject × Dict FKey (List FileObject))
       (fo : FileObject), fo.filename = none → fo.alloc = true →
       stepPre P ignorable_name st fo =
         (Dict.set st.1 (identityKey P.ignore_properties fo) fo, st.2)) := by
  refine ⟨fun s => ?_, rfl, fun P st fo hfn hal => ?_⟩
  · simp [ignorable_name, List.elem_iff]
  · simp [stepPre, hfn, hal, ignorable_name]

/-- Witness for C10 at concrete inputs. -/
theorem ignorable_name_spec_witness :
    (ignorable_name (some "x/$FAT1") = true ↔ basename "x/$FAT1" ∈ pseudoNames) ∧
    stepPre Pall ignorable_name ([], []) { alloc := true } =
      ([((none, none, none), ({ alloc := true } : FileObject))], []) := by
  constructor
  · exact ignorable_name_spec.1 "x/$FAT1"
  · exact ignorable_name_spec.2.2 Pall ([], []) { alloc := true } rfl rfl

/-! ## Claim C2: the unallocated-content matching diff computation -/

/-- C2 (code bug): in the unallocated-content matching pass the source
(line 384) subtracts the mask set, not the ignore set, from the raw
changed-attribute set before intersecting with the mask set, so under
`diff_mode = idifference` the computed diff is always empty.  At the
failing input below the pair differs in `mtime` — the spec-defined
effective diff is the non-empty `{mtime}`, so the spec classifies the pair
changed — yet the code classifies it unchanged. -/
theorem unalloc_mask_subtraction_bug :
    specEffectiveDiff (compareToOriginal exU exU_mtime ∅) ∅ (diffMaskSet "idifference") =
      ({"mtime"} : Finset String) ∧
    (make_differential_dfxml ignorable_name Pidiff [exU] [exU_mtime]).changedFiles = [] ∧
    (make_differential_dfxml ignorable_name Pidiff [exU] [exU_mtime]).unchangedFiles.length = 1 := by
  refine ⟨by decide, by decide, by decide⟩

/-! ## Claim C7: the Output Assembler ordinal collision -/

theorem not_nodup_append_cons {l₁ l₂ : List Nat} {a : Nat} (h : a ∈ l₁) :
    ¬ (l₁ ++ a :: l₂).Nodup := by
  intro hn
  rw [List.nodup_append] at hn
  exact hn.2.2 h (List.mem_cons_self a l₂)

theorem addAppenders_ok_iff (entries : List (VKey × VolumeObject)) :
    ∀ (enc : Dict VKey Nat) (app : Dict Nat VolumeObject),
    (∀ kv ∈ entries, (Dict.get? enc kv.1).isSome = true) →
    (Dict.keys app).Nodup →
    ((∃ d, addAppenders enc app entries = .ok d) ↔
      (Dict.keys app ++ entries.map (fun kv => (Dict.get? enc kv.1).getD 0)).Nodup) := by
  induction entries with
  | nil =>
    intro enc app _ happ
    simp [addAppenders, happ]
  | cons kv rest ih =>
    intro enc app hall happ
    obtain ⟨veo, hveo⟩ := Option.isSome_iff_exists.mp (hall kv (List.mem_cons_self kv rest))
    obtain ⟨k, v⟩ := kv
    simp only [addAppenders, hveo]
    cases hg : Dict.get? app veo with
    | some w =>
      simp only [hg, Option.isSome_some, if_true]
      constructor
      · rintro ⟨d, hd⟩
        exact absurd hd (by simp)
      · intro hnd
        exact absurd hnd
          (by
            simp only [List.map_cons, hveo, Option.getD_some]
            exact not_nodup_append_cons (Dict.mem_keys_of_get?_eq_some hg))
    | none =>
      simp only [hg, Option.isSome_none, Bool.false_eq_true, if_false]
      have hkeys : Dict.keys (Dict.set app veo v) = Dict.keys app ++ [veo] :=
        Dict.keys_set_of_get?_none v hg
      have h2 := ih enc (Dict.set app veo v)
        (fun kv2 hkv2 => hall kv2 (List.mem_cons_of_mem _ hkv2))
        (by
          rw [hkeys, List.nodup_append]
          refine ⟨happ, List.nodup_singleton veo, ?_⟩
          intro a ha hb
          rw [List.mem_singleton] at hb
          subst hb
          exact (Dict.get?_eq_none_iff.mp hg) ha)
      rw [h2, hkeys, List.map_cons, hveo, Option.getD_some, List.append_assoc,
        List.singleton_append]

/-- C7 (amended): the Output Assembler raises its fatal error exactly when
the same encounter-order ordinal is reached twice while routing the
entries of the new, matched and deleted volume maps — and input data can
reach that state: a post snapshot carrying the same volume key twice,
the first occurrence matching the baseline, re-registers the key as new
while it also sits in the matched map, so routing sees its ordinal twice
and raises. -/
theorem assembler_error_iff_duplicate_ordinal :
    (∀ (st : VolState),
      (∀ kv ∈ st.new_volumes ++ st.matched_volumes ++ st.old_volumes,
        (Dict.get? st.enc kv.1).isSome = true) →
      (isError (buildAppenders st) = true ↔
        ¬ ((st.new_volumes ++ st.matched_volumes ++ st.old_volumes).map
            (fun kv => (Dict.get? st.enc kv.1).getD 0)).Nodup)) ∧
    isError (volAssemble [exV] [exV, exV]) = true := by
  constructor
  · intro st hall
    have h := addAppenders_ok_iff (st.new_volumes ++ st.matched_volumes ++ st.old_volumes)
      st.enc [] hall (by simp [Dict.keys])
    unfold buildAppenders
    simp only [Dict.keys, List.map_nil, List.nil_append] at h
    constructor
    · intro herr hnd
      obtain ⟨d, hd⟩ := h.mpr hnd
      rw [hd] at herr
      exact Bool.noConfusion herr
    · intro hnd
      cases hres : addAppenders st.enc [] (st.new_volumes ++ st.matched_volumes ++ st.old_volumes) with
      | error e => simp [isError]
      | ok d => exact absurd (h.mp ⟨d, hres⟩) hnd
  · decide

/-- C7 counterexample: the fatal routing error is triggered by input data
alone — a baseline with one volume and a post snapshot repeating that
volume twice — and the run involves a single distinct volume key, not two
distinct keys sharing an ordinal. -/
theorem assembler_error_from_input :
    isError (volAssemble [exV] [exV, exV]) = true ∧
    encKeys (volProcess [exV] [exV, exV]) = [(0, some "ntfs")] := by
  decide

/-- Witness for the amended C7 theorem at the state the failing input
produces. -/
theorem assembler_error_iff_duplicate_ordinal_witness :
    isError (buildAppenders ⟨[], [((0, some "ntfs"), exV)], [((0, some "ntfs"), exV)],
        [((0, some "ntfs"), 2)]⟩) = true ↔
      ¬ ((([((0, some "ntfs"), exV)] ++ [((0, some "ntfs"), exV)] ++ []) :
            List (VKey × VolumeObject)).map
          (fun kv => (Dict.get? [((0, some "ntfs"), 2)] kv.1).getD 0)).Nodup := by
  exact assembler_error_iff_duplicate_ordinal.1
    ⟨[], [((0, some "ntfs"), exV)], [((0, some "ntfs"), exV)], [((0, some "ntfs"), 2)]⟩
    (by decide)

/-! ## Claim C9: case-insensitive volume matching -/

theorem VolEquiv.key_eq {a b : VolumeObject} (h : VolEquiv a b) :
    a.partition_offset = b.partition_offset ∧ lower_ftype_str a = lower_ftype_str b :=
  ⟨h.1, h.2⟩

theorem DVolEquiv.get?_isSome {d e : Dict VKey VolumeObject} (h : DVolEquiv d e) (k : VKey) :
    (Dict.get? d k).isSome = (Dict.get? e k).isSome := by
  induction d generalizing e with
  | nil => cases h; rfl
  | cons x xs ih =>
    cases h with
    | cons hxy hrest =>
      rename_i y ys
      by_cases hk : x.1 = k
      · simp [Dict.get?, hk, hxy.1.symm.trans hk]
      · have hk2 : y.1 ≠ k := fun hy => hk (hxy.1.trans hy)
        simp [Dict.get?, hk, hk2, ih hrest]

theorem DVolEquiv.set {d e : Dict VKey VolumeObject} (h : DVolEquiv d e) (k : VKey)
    {v w : VolumeObject} (hvw : VolEquiv v w) :
    DVolEquiv (Dict.set d k v) (Dict.set e k w) := by
  induction d generalizing e with
  | nil =>
    cases h
    exact List.Forall₂.cons ⟨rfl, hvw⟩ List.Forall₂.nil
  | cons x xs ih =>
    cases h with
    | cons hxy hrest =>
      rename_i y ys
      by_cases hk : x.1 = k
      · simp only [Dict.set, if_pos hk, if_pos (hxy.1.symm.trans hk)]
        exact List.Forall₂.cons ⟨hxy.1, hvw⟩ hrest
      · have hk2 : y.1 ≠ k := fun hy => hk (hxy.1.trans hy)
        simp only [Dict.set, if_neg hk, if_neg hk2]
        exact List.Forall₂.cons hxy (ih hrest)

theorem DVolEquiv.erase {d e : Dict VKey VolumeObject} (h : DVolEquiv d e) (k : VKey) :
    DVolEquiv (Dict.erase d k) (Dict.erase e k) := by
  induction d generalizing e with
  | nil =>
    cases h
    exact List.Forall₂.nil
  | cons x xs ih =>
    cases h with
    | cons hxy hrest =>
      rename_i y ys
      by_cases hk : x.1 = k
      · simp only [Dict.erase, if_pos hk, if_pos (hxy.1.symm.trans hk)]
        exact hrest
      · have hk2 : y.1 ≠ k := fun hy => hk (hxy.1.trans hy)
        simp only [Dict.erase, if_neg hk, if_neg hk2]
        exact List.Forall₂.cons hxy (ih hrest)

theorem DVolEquiv.foldl_set {m m' : Dict VKey VolumeObject} (h : DVolEquiv m m') :
    ∀ {acc acc' : Dict VKey VolumeObject}, DVolEquiv acc acc' →
    DVolEquiv (m.foldl (fun o kv => Dict.set o kv.1 kv.2) acc)
      (m'.foldl (fun o kv => Dict.set o kv.1 kv.2) acc') := by
  induction m generalizing m' with
  | nil =>
    cases h
    exact fun hacc => hacc
  | cons x xs ih =>
    cases h with
    | cons hxy hrest =>
      intro acc acc' hacc
      refine ih hrest ?_
      dsimp only
      rw [← hxy.1]
      exact DVolEquiv.set hacc x.1 hxy.2

theorem volStep_equiv {s t : VolState} (hst : StEquiv s t) {vo vo' : VolumeObject}
    (hv : VolEquiv vo vo') :
    ExEquiv (volStep s vo) (volStep t vo') := by
  obtain ⟨ho, hn, hm, he⟩ := hst
  unfold volStep
  rw [← hv.1]
  cases hoff : vo.partition_offset with
  | none => exact trivial
  | some offset =>
    have hkey : lower_ftype_str vo' = lower_ftype_str vo := hv.key_eq.2.symm
    rw [hkey]
    dsimp only
    have hlen := ho.length_eq
    have hne : (s.old_volumes ≠ [] ↔ t.old_volumes ≠ []) := by
      constructor
      · intro h1 h2
        exact h1 (List.length_eq_zero.mp (by rw [hlen, h2]; rfl))
      · intro h1 h2
        exact h1 (List.length_eq_zero.mp (by rw [← hlen, h2]; rfl))
    have hsome := ho.get?_isSome (offset, lower_ftype_str vo)
    by_cases hc : s.old_volumes ≠ [] ∧
        (Dict.get? s.old_volumes (offset, lower_ftype_str vo)).isSome = true
    · rw [if_pos hc, if_pos ⟨hne.mp hc.1, hsome ▸ hc.2⟩]
      exact ⟨ho.erase _, hn, hm.set _ hv, he⟩
    · rw [if_neg hc, if_neg (fun hc2 => hc ⟨hne.mpr hc2.1, hsome ▸ hc2.2⟩)]
      refine ⟨ho, hn.set _ hv, hm, ?_⟩
      rw [he, (hn.set _ hv).length_eq, ho.length_eq, hm.length_eq]

theorem volScan_equiv {vols vols' : List VolumeObject}
    (hv : List.Forall₂ VolEquiv vols vols') :
    ∀ {s t : VolState}, StEquiv s t → ExEquiv (volScan s vols) (volScan t vols') := by
  induction vols generalizing vols' with
  | nil =>
    cases hv
    exact fun hst => hst
  | cons x xs ih =>
    cases hv with
    | cons hxy hrest =>
      rename_i y ys
      intro s t hst
      have hstep := volStep_equiv hst hxy
      unfold volScan
      cases h1 : volStep s x with
      | error e =>
        cases h2 : volStep t y with
        | error e2 => exact trivial
        | ok t2 => rw [h1, h2] at hstep; exact absurd hstep (by simp [ExEquiv])
      | ok s2 =>
        cases h2 : volStep t y with
        | error e2 => rw [h1, h2] at hstep; exact absurd hstep (by simp [ExEquiv])
        | ok t2 =>
          rw [h1, h2] at hstep
          exact ih hrest hstep

theorem volRotate_equiv {s t : VolState} (hst : StEquiv s t) :
    StEquiv (volRotate s) (volRotate t) := by
  obtain ⟨ho, hn, hm, he⟩ := hst
  exact ⟨hm.foldl_set hn, List.Forall₂.nil, List.Forall₂.nil, he⟩

/-- C9: volume matching is case-insensitive in the file-system-type
component of the volume key — pointwise replacing volume records by
records that agree up to letter case of `ftype_str` yields the same match
result: the same keys in each of the new, deleted and matched maps, the
same encounter-order ordinals, and case-equivalent records at the same
positions. -/
theorem volume_match_case_insensitive
    {pre pre' post post' : List VolumeObject}
    (hpre : List.Forall₂ VolEquiv pre pre') (hpost : List.Forall₂ VolEquiv post post') :
    ExEquiv (volProcess pre post) (volProcess pre' post') := by
  have h0 : StEquiv (volRotate ⟨[], [], [], []⟩) (volRotate ⟨[], [], [], []⟩) :=
    ⟨List.Forall₂.nil, List.Forall₂.nil, List.Forall₂.nil, rfl⟩
  have h1 := volScan_equiv hpre h0
  unfold volProcess
  cases e1 : volScan (volRotate ⟨[], [], [], []⟩) pre with
  | error e =>
    cases e2 : volScan (volRotate ⟨[], [], [], []⟩) pre' with
    | error e2 => exact trivial
    | ok t1 => rw [e1, e2] at h1; exact absurd h1 (by simp [ExEquiv])
  | ok s1 =>
    cases e2 : volScan (volRotate ⟨[], [], [], []⟩) pre' with
    | error e2 => rw [e1, e2] at h1; exact absurd h1 (by simp [ExEquiv])
    | ok t1 =>
      rw [e1, e2] at h1
      exact volScan_equiv hpost (volRotate_equiv h1)

/-- Witness for C9: an upper-case and a lower-case spelling of the same
file-system label produce the same volume match result. -/
theorem volume_match_case_insensitive_witness :
    ExEquiv (volProcess [exVU] [exVU]) (volProcess [exV] [exV]) := by
  have h : List.Forall₂ VolEquiv [exVU] [exV] :=
    List.Forall₂.cons ⟨rfl, by decide⟩ List.Forall₂.nil
  exact volume_match_case_insensitive h h

/-! ## Claim C4: the direct-lookup pass -/

/-- C4: whenever a second-snapshot allocated record finds its identity key
in the baseline live map, the pair is compared and the filtered diff set
decides classification: non-empty classifies it changed, empty classifies
it unchanged and retains it only when requested (otherwise it is
dropped).  In particular, under `diff_mode = idifference` a record whose
only raw change is an owner-id attribute outside the mask is classified
unchanged even though its raw diff set is non-empty. -/
theorem direct_lookup_classification :
    (∀ (P : DiffParams) (ignf : Option String → Bool) (st : StateB) (fo old_fobj : FileObject),
      ignf fo.filename = false → fo.alloc = true →
      Dict.get? st.old_fis (identityKey P.ignore_properties fo) = some old_fobj →
      (filteredDiff P old_fobj fo ≠ ∅ → stepPost P ignf st fo =
        { st with old_fis := Dict.erase st.old_fis (identityKey P.ignore_properties fo),
                  changed := st.changed ++ [matchedEntry P old_fobj fo] }) ∧
      (filteredDiff P old_fobj fo = ∅ → P.retain_unchanged = true → stepPost P ignf st fo =
        { st with old_fis := Dict.erase st.old_fis (identityKey P.ignore_properties fo),
                  unchanged := st.unchanged ++ [matchedEntry P old_fobj fo] }) ∧
      (filteredDiff P old_fobj fo = ∅ → P.retain_unchanged = false → stepPost P ignf st fo =
        { st with old_fis := Dict.erase st.old_fis (identityKey P.ignore_properties fo) })) ∧
    compareToOriginal exA exA_uid ∅ ≠ ∅ ∧
    (make_differential_dfxml ignorable_name Pidiff [exA] [exA_uid]).changedFiles = [] ∧
    (make_differential_dfxml ignorable_name Pidiff [exA] [exA_uid]).unchangedFiles =
      [{ obj := exA_uid, original := some exA, diffs := ({"uid"} : Finset String) }] := by
  refine ⟨?_, by decide, by decide, by decide⟩
  intro P ignf st fo old_fobj hign hal hget
  unfold stepPost
  rw [hign, hal]
  simp only [Bool.false_eq_true, if_false, Bool.not_true, hget]
  refine ⟨?_, ?_, ?_⟩
  · intro hne
    rw [if_pos (show (if diffMaskSet P.diff_mode ≠ ∅ then
        (compareToOriginal old_fobj fo P.ignore_properties \ P.ignore_properties) ∩
          diffMaskSet P.diff_mode
      else compareToOriginal old_fobj fo P.ignore_properties \ P.ignore_properties) ≠ ∅ from hne)]
    rfl
  · intro heq hret
    rw [if_neg (show ¬ (if diffMaskSet P.diff_mode ≠ ∅ then
        (compareToOriginal old_fobj fo P.ignore_properties \ P.ignore_properties) ∩
          diffMaskSet P.diff_mode
      else compareToOriginal old_fobj fo P.ignore_properties \ P.ignore_properties) ≠ ∅ from
        fun h => h heq), hret]
    simp only [if_true]
    rfl
  · intro heq hret
    rw [if_neg (show ¬ (if diffMaskSet P.diff_mode ≠ ∅ then
        (compareToOriginal old_fobj fo P.ignore_properties \ P.ignore_properties) ∩
          diffMaskSet P.diff_mode
      else compareToOriginal old_fobj fo P.ignore_properties \ P.ignore_properties) ≠ ∅ from
        fun h => h heq), hret]
    simp

/-! ## Claim C3: the rename-detection pass -/

theorem renameStep_sound (P : DiffParams)
    (om nm : Dict (Option Nat × Option Nat) (List (Option String)))
    (st : RenameState) (k : Option Nat × Option Nat) (e : OutFile)
    (he : e ∈ (renameStep P om nm st k).renamed) :
    e ∈ st.renamed ∨ renameCandidate P om nm e := by
  unfold renameStep at he
  repeat' split at he
  all_goals try exact Or.inl he
  rename_i xa nn hn xb onmv ho xc xd old_fobj new_obj hof hnf hh
  rcases List.mem_append.mp he with h1 | h1
  · exact Or.inl h1
  · rw [List.mem_singleton] at h1
    refine Or.inr ⟨k, onmv, nn, old_fobj, new_obj, hn, ho, h1, ?_⟩
    intro hreq
    by_contra hsh
    exact hh ⟨hreq, hsh⟩

theorem renameFold_sound (P : DiffParams)
    (om nm : Dict (Option Nat × Option Nat) (List (Option String)))
    (ks : List (Option Nat × Option Nat)) :
    ∀ (st : RenameState) (e : OutFile),
      e ∈ (ks.foldl (renameStep P om nm) st).renamed →
      e ∈ st.renamed ∨ renameCandidate P om nm e := by
  induction ks with
  | nil => exact fun st e he => Or.inl he
  | cons k rest ih =>
    intro st e he
    rcases ih (renameStep P om nm st k) e he with h | h
    · exact renameStep_sound P om nm st k e h
    · exact Or.inr h

/-- C3: every record the rename pass pairs arises from a (partition,
inode) address carrying exactly one filename on each side, with SHA-1
agreement when hash confirmation is required — and in the ambiguous
2-to-2 configuration (two files sharing one inode on each side) no rename
is produced: the four records surface as new and deleted instead. -/
theorem rename_pass_uniqueness :
    (∀ (P : DiffParams) (old_fis new_fis : Dict FKey FileObject),
      ∀ e ∈ (renamePass P old_fis new_fis).renamed,
        renameCandidate P (makeNameMap old_fis) (makeNameMap new_fis) e) ∧
    (make_differential_dfxml ignorable_name Pall [ex2a, ex2b] [ex2c, ex2d]).renamedFiles = [] ∧
    ((make_differential_dfxml ignorable_name Pall [ex2a, ex2b] [ex2c, ex2d]).newFiles.map
      (fun e => e.obj)) = [ex2c, ex2d] ∧
    ((make_differential_dfxml ignorable_name Pall [ex2a, ex2b] [ex2c, ex2d]).deletedFiles.map
      (fun e => e.original)) = [some ex2a, some ex2b] := by
  refine ⟨?_, by decide, by decide, by decide⟩
  intro P old_fis new_fis e he
  unfold renamePass at he
  rcases renameFold_sound P (makeNameMap old_fis) (makeNameMap new_fis)
      (Dict.keys (makeNameMap new_fis)) ⟨old_fis, new_fis, []⟩ e he with h | h
  · exact absurd h (List.not_mem_nil e)
  · exact h

/-- Witness for C3 at the one-to-one rename scenario (`a.txt` renamed to
`b.txt` at the same inode, hashes equal). -/
theorem rename_pass_uniqueness_witness :
    renameCandidate Pall
      (makeNameMap [((some 0, some 5, some "a.txt"), exR1)])
      (makeNameMap [((some 0, some 5, some "b.txt"), exR2)])
      (matchedEntry Pall exR1 exR2) :=
  rename_pass_uniqueness.1 Pall
    [((some 0, some 5, some "a.txt"), exR1)] [((some 0, some 5, some "b.txt"), exR2)]
    (matchedEntry Pall exR1 exR2) (by decide)

/-! ### Shared structural lemmas for the snapshot scans -/

theorem compareToOriginal_self (r : FileObject) (ig : Finset String) :
    compareToOriginal r r ig = ∅ := by
  unfold compareToOriginal dset
  simp

theorem filteredDiff_self (P : DiffParams) (r : FileObject) :
    filteredDiff P r r = ∅ := by
  unfold filteredDiff
  rw [compareToOriginal_self]
  split <;> simp

namespace Dict

variable {α β : Type} [DecidableEq α]

theorem get?_cons_none {d : Dict α β} {x : α × β} {k : α} (h : get? (x :: d) k = none) :
    x.1 ≠ k ∧ get? d k = none := by
  by_cases hx : x.1 = k
  · rw [show get? (x :: d) k = some x.2 from by simp [get?, hx]] at h
    exact absurd h (by simp)
  · exact ⟨hx, by simpa [get?, hx] using h⟩

theorem get?_append_hit {done : Dict α β} {k : α} (h : get? done k = none) (v : β)
    (rest : Dict α β) : get? (done ++ (k, v) :: rest) k = some v := by
  induction done with
  | nil => simp [get?]
  | cons x ds ih =>
    obtain ⟨hx, hd⟩ := get?_cons_none h
    simp only [List.cons_append, get?, if_neg hx]
    exact ih hd

theorem set_append_hit {done : Dict α β} {k : α} (h : get? done k = none) (v w : β)
    (rest : Dict α β) : set (done ++ (k, v) :: rest) k w = done ++ (k, w) :: rest := by
  induction done with
  | nil => simp [set]
  | cons x ds ih =>
    obtain ⟨hx, hd⟩ := get?_cons_none h
    simp only [List.cons_append, set, if_neg hx, List.cons.injEq, true_and]
    exact ih hd

end Dict

theorem get?_map_pairing (κ : FileObject → FKey) :
    ∀ (l : List FileObject) (r : FileObject), (l.map κ).Nodup → r ∈ l →
    Dict.get? (l.map (fun x => (κ x, x))) (κ r) = some r := by
  intro l
  induction l with
  | nil => intro r _ hr; exact absurd hr (List.not_mem_nil r)
  | cons x rest ih =>
    intro r hnd hr
    rcases List.mem_cons.mp hr with h | h
    · subst h
      simp [Dict.get?]
    · have hx : κ x ≠ κ r := by
        intro he
        rw [List.map_cons, List.nodup_cons] at hnd
        exact hnd.1 (he ▸ List.mem_map_of_mem κ h)
      simp only [List.map_cons, Dict.get?, if_neg hx]
      exact ih r (by rw [List.map_cons, List.nodup_cons] at hnd; exact hnd.2) h

theorem foldl_erase_pairing (κ : FileObject → FKey) :
    ∀ (l : List FileObject),
    ((l.map κ).foldl (fun (d : Dict FKey FileObject) k => Dict.erase d k)
      (l.map (fun r => (κ r, r)))) = [] := by
  intro l
  induction l with
  | nil => rfl
  | cons r rest ih =>
    simp only [List.map_cons, List.foldl_cons, Dict.erase, if_pos rfl]
    exact ih

theorem scanPre_fold_fis (P : DiffParams) (ignf : Option String → Bool) :
    ∀ (l : List FileObject) (F : Dict FKey FileObject) (U : Dict FKey (List FileObject)),
    ((F.map Prod.fst) ++
      ((allocFiltered ignf l).map (identityKey P.ignore_properties))).Nodup →
    (l.foldl (stepPre P ignf) (F, U)).1 =
      F ++ (allocFiltered ignf l).map (fun r => (identityKey P.ignore_properties r, r)) := by
  intro l
  induction l with
  | nil => intro F U _; simp [allocFiltered]
  | cons fo rest ih =>
    intro F U h
    by_cases hig : ignf fo.filename
    · have hf : allocFiltered ignf (fo :: rest) = allocFiltered ignf rest := by
        simp [allocFiltered, hig]
      rw [hf] at h
      rw [List.foldl_cons, show stepPre P ignf (F, U) fo = (F, U) from by simp [stepPre, hig],
        hf]
      exact ih F U h
    · by_cases hal : fo.alloc
      · have hf : allocFiltered ignf (fo :: rest) = fo :: allocFiltered ignf rest := by
          simp [allocFiltered, hig, hal]
        rw [hf] at h
        rw [List.map_cons] at h
        have hfresh : identityKey P.ignore_properties fo ∉ F.map Prod.fst := by
          intro hmem
          rw [List.nodup_append] at h
          exact h.2.2 hmem (List.mem_cons_self _ _)
        have hnone : Dict.get? F (identityKey P.ignore_properties fo) = none :=
          Dict.get?_eq_none_iff.mpr hfresh
        rw [List.foldl_cons, show stepPre P ignf (F, U) fo =
          (Dict.set F (identityKey P.ignore_properties fo) fo, U) from by
            simp [stepPre, hig, hal]]
        rw [Dict.set_eq_append_of_get?_none fo hnone]
        have h2 : (((F ++ [(identityKey P.ignore_properties fo, fo)]).map Prod.fst) ++
            (allocFiltered ignf rest).map (identityKey P.ignore_properties)).Nodup := by
          rw [List.map_append, List.append_assoc]
          simpa using h
        rw [hf, List.map_cons, ih (F ++ [(identityKey P.ignore_properties fo, fo)]) U h2,
          List.append_assoc, List.singleton_append]
      · have hf : allocFiltered ignf (fo :: rest) = allocFiltered ignf rest := by
          simp [allocFiltered, hig, hal]
        rw [hf] at h
        rw [List.foldl_cons, show stepPre P ignf (F, U) fo =
          (F, Dict.push U (identityKey P.ignore_properties fo) fo) from by
            simp [stepPre, hig, hal], hf]
        exact ih F _ h

theorem scanPre_fold_unalloc (P : DiffParams) (ignf : Option String → Bool) :
    ∀ (l : List FileObject) (F : Dict FKey FileObject) (U : Dict FKey (List FileObject)),
    ((U.map Prod.fst) ++
      ((unallocFiltered ignf l).map (identityKey P.ignore_properties))).Nodup →
    (l.foldl (stepPre P ignf) (F, U)).2 =
      U ++ (unallocFiltered ignf l).map (fun r => (identityKey P.ignore_properties r, [r])) := by
  intro l
  induction l with
  | nil => intro F U _; simp [unallocFiltered]
  | cons fo rest ih =>
    intro F U h
    by_cases hig : ignf fo.filename
    · have hf : unallocFiltered ignf (fo :: rest) = unallocFiltered ignf rest := by
        simp [unallocFiltered, hig]
      rw [hf] at h
      rw [List.foldl_cons, show stepPre P ignf (F, U) fo = (F, U) from by simp [stepPre, hig],
        hf]
      exact ih F U h
    · by_cases hal : fo.alloc
      · have hf : unallocFiltered ignf (fo :: rest) = unallocFiltered ignf rest := by
          simp [unallocFiltered, hig, hal]
        rw [hf] at h
        rw [List.foldl_cons, show stepPre P ignf (F, U) fo =
          (Dict.set F (identityKey P.ignore_properties fo) fo, U) from by
            simp [stepPre, hig, hal], hf]
        exact ih _ U h
      · have hf : unallocFiltered ignf (fo :: rest) = fo :: unallocFiltered ignf rest := by
          simp [unallocFiltered, hig, hal]
        rw [hf] at h
        rw [List.map_cons] at h
        have hfresh : identityKey P.ignore_properties fo ∉ U.map Prod.fst := by
          intro hmem
          rw [List.nodup_append] at h
          exact h.2.2 hmem (List.mem_cons_self _ _)
        have hnone : Dict.get? U (identityKey P.ignore_properties fo) = none :=
          Dict.get?_eq_none_iff.mpr hfresh
        have hpush : Dict.push U (identityKey P.ignore_properties fo) fo =
            U ++ [(identityKey P.ignore_properties fo, [fo])] := by
          unfold Dict.push
          rw [hnone]
          exact Dict.set_eq_append_of_get?_none [fo] hnone
        rw [List.foldl_cons, show stepPre P ignf (F, U) fo =
          (F, Dict.push U (identityKey P.ignore_properties fo) fo) from by
            simp [stepPre, hig, hal]]
        rw [hpush]
        have h2 : (((U ++ [(identityKey P.ignore_properties fo, [fo])]).map Prod.fst) ++
            (unallocFiltered ignf rest).map (identityKey P.ignore_properties)).Nodup := by
          rw [List.map_append, List.append_assoc]
          simpa using h
        rw [hf, List.map_cons, ih F (U ++ [(identityKey P.ignore_properties fo, [fo])]) h2,
          List.append_assoc, List.singleton_append]

/-- The direct-lookup hit that finds no change, retained (source lines
249-268, unchanged branch). -/
theorem stepPost_hit_unchanged (P : DiffParams) (ignf : Option String → Bool)
    (st : StateB) (fo old_fobj : FileObject)
    (hig : ignf fo.filename = false) (hal : fo.alloc = true)
    (hget : Dict.get? st.old_fis (identityKey P.ignore_properties fo) = some old_fobj)
    (hds : filteredDiff P old_fobj fo = ∅) (hret : P.retain_unchanged = true) :
    stepPost P ignf st fo =
      { st with old_fis := Dict.erase st.old_fis (identityKey P.ignore_properties fo),
                unchanged := st.unchanged ++ [matchedEntry P old_fobj fo] } := by
  unfold stepPost
  rw [hig, hal]
  simp only [Bool.false_eq_true, if_false, Bool.not_true, hget]
  rw [if_neg (show ¬ (if diffMaskSet P.diff_mode ≠ ∅ then
      (compareToOriginal old_fobj fo P.ignore_properties \ P.ignore_properties) ∩
        diffMaskSet P.diff_mode
    else compareToOriginal old_fobj fo P.ignore_properties \ P.ignore_properties) ≠ ∅ from
      fun hcon => hcon hds), hret]
  simp only [if_true]
  rfl

/-- The second-snapshot step on an unallocated record (source lines
239-241). -/
theorem stepPost_unalloc (P : DiffParams) (ignf : Option String → Bool)
    (st : StateB) (fo : FileObject)
    (hig : ignf fo.filename = false) (hal : fo.alloc = false) :
    stepPost P ignf st fo =
      { st with new_unalloc :=
          Dict.push st.new_unalloc (identityKey P.ignore_properties fo) fo } := by
  unfold stepPost
  rw [hig, hal]
  rfl

/-- The second-snapshot step on a filtered name (source lines 213-214). -/
theorem stepPost_ignored (P : DiffParams) (ignf : Option String → Bool)
    (st : StateB) (fo : FileObject) (hig : ignf fo.filename = true) :
    stepPost P ignf st fo = st := by
  unfold stepPost
  rw [hig]
  rfl

theorem scanPost_self (P : DiffParams) (ignf : Option String → Bool)
    (hret : P.retain_unchanged = true) :
    ∀ (l : List FileObject) (st : StateB),
    (∀ r ∈ allocFiltered ignf l,
      Dict.get? st.old_fis (identityKey P.ignore_properties r) = some r) →
    ((allocFiltered ignf l).map (identityKey P.ignore_properties)).Nodup →
    ((st.new_unalloc.map Prod.fst) ++
      ((unallocFiltered ignf l).map (identityKey P.ignore_properties))).Nodup →
    (l.foldl (stepPost P ignf) st).old_fis =
        ((allocFiltered ignf l).map (identityKey P.ignore_properties)).foldl
          (fun d k => Dict.erase d k) st.old_fis ∧
    (l.foldl (stepPost P ignf) st).new_fis = st.new_fis ∧
    (l.foldl (stepPost P ignf) st).new_unalloc =
        st.new_unalloc ++ (unallocFiltered ignf l).map
          (fun r => (identityKey P.ignore_properties r, [r])) ∧
    (l.foldl (stepPost P ignf) st).changed = st.changed ∧
    (l.foldl (stepPost P ignf) st).unchanged =
        st.unchanged ++ (allocFiltered ignf l).map (fun r => matchedEntry P r r) := by
  intro l
  induction l with
  | nil => intro st _ _ _; simp [allocFiltered, unallocFiltered]
  | cons fo rest ih =>
    intro st hget hndA hndU
    by_cases hig : ignf fo.filename
    · have hfA : allocFiltered ignf (fo :: rest) = allocFiltered ignf rest := by
        simp [allocFiltered, hig]
      have hfU : unallocFiltered ignf (fo :: rest) = unallocFiltered ignf rest := by
        simp [unallocFiltered, hig]
      rw [hfA] at hget hndA
      rw [hfU] at hndU
      rw [List.foldl_cons, stepPost_ignored P ignf st fo hig, hfA, hfU]
      exact ih st hget hndA hndU
    · have hig2 : ignf fo.filename = false := by
        cases hcase : ignf fo.filename
        · rfl
        · exact absurd hcase hig
      by_cases hal : fo.alloc
      · have hfA : allocFiltered ignf (fo :: rest) = fo :: allocFiltered ignf rest := by
          simp [allocFiltered, hig, hal]
        have hfU : unallocFiltered ignf (fo :: rest) = unallocFiltered ignf rest := by
          simp [unallocFiltered, hig, hal]
        rw [hfA] at hget hndA
        rw [hfU] at hndU
        rw [List.map_cons, List.nodup_cons] at hndA
        have hgfo : Dict.get? st.old_fis (identityKey P.ignore_properties fo) = some fo :=
          hget fo (List.mem_cons_self fo _)
        have hstep := stepPost_hit_unchanged P ignf st fo fo hig2 hal hgfo
          (filteredDiff_self P fo) hret
        rw [List.foldl_cons, hstep, hfA, hfU]
        have hrest := ih { st with
            old_fis := Dict.erase st.old_fis (identityKey P.ignore_properties fo),
            unchanged := st.unchanged ++ [matchedEntry P fo fo] }
          (fun r hr => by
            have hne : identityKey P.ignore_properties fo ≠ identityKey P.ignore_properties r := by
              intro he
              exact hndA.1 (he ▸ List.mem_map_of_mem (identityKey P.ignore_properties) hr)
            simpa [Dict.get?_erase_ne _ hne] using hget r (List.mem_cons_of_mem fo hr))
          hndA.2 hndU
        refine ⟨?_, hrest.2.1, hrest.2.2.1, hrest.2.2.2.1, ?_⟩
        · rw [List.map_cons, List.foldl_cons]
          exact hrest.1
        · rw [hrest.2.2.2.2, List.map_cons, List.append_assoc, List.singleton_append]
      · have hal2 : fo.alloc = false := by
          cases hcase : fo.alloc
          · rfl
          · exact absurd hcase hal
        have hfA : allocFiltered ignf (fo :: rest) = allocFiltered ignf rest := by
          simp [allocFiltered, hig, hal]
        have hfU : unallocFiltered ignf (fo :: rest) = fo :: unallocFiltered ignf rest := by
          simp [unallocFiltered, hig, hal]
        rw [hfA] at hget hndA
        rw [hfU] at hndU
        rw [List.map_cons] at hndU
        have hfresh : identityKey P.ignore_properties fo ∉ st.new_unalloc.map Prod.fst := by
          intro hmem
          rw [List.nodup_append] at hndU
          exact hndU.2.2 hmem (List.mem_cons_self _ _)
        have hnone : Dict.get? st.new_unalloc (identityKey P.ignore_properties fo) = none :=
          Dict.get?_eq_none_iff.mpr hfresh
        have hpush : Dict.push st.new_unalloc (identityKey P.ignore_properties fo) fo =
            st.new_unalloc ++ [(identityKey P.ignore_properties fo, [fo])] := by
          unfold Dict.push
          rw [hnone]
          exact Dict.set_eq_append_of_get?_none [fo] hnone
        rw [List.foldl_cons, stepPost_unalloc P ignf st fo hig2 hal2, hfA, hfU]
        have hndU2 : (((st.new_unalloc ++
            [(identityKey P.ignore_properties fo, [fo])]).map Prod.fst) ++
            ((unallocFiltered ignf rest).map (identityKey P.ignore_properties))).Nodup := by
          rw [List.map_append, List.append_assoc]
          simpa using hndU
        have hrest := ih { st with new_unalloc := Dict.push st.new_unalloc (identityKey P.ignore_properties fo) fo } hget hndA (by rw [hpush]; exact hndU2)
        refine ⟨hrest.1, hrest.2.1, ?_, hrest.2.2.2.1, hrest.2.2.2.2⟩
        rw [hrest.2.2.1, hpush, List.map_cons, List.append_assoc, List.singleton_append]

theorem unallocFold_self (P : DiffParams) (hret : P.retain_unchanged = true) :
    ∀ (todo : List FileObject) (done : Dict FKey (List FileObject)) (st : UnallocState),
    st.old_fis = [] →
    st.old_unalloc = done ++ todo.map (fun u => (identityKey P.ignore_properties u, [u])) →
    st.new_unalloc = st.old_unalloc →
    ((done.map Prod.fst) ++ todo.map (identityKey P.ignore_properties)).Nodup →
    ((todo.map (identityKey P.ignore_properties)).foldl (unallocStep P) st).old_fis = [] ∧
    ((todo.map (identityKey P.ignore_properties)).foldl (unallocStep P) st).old_unalloc =
      done ++ todo.map (fun u => (identityKey P.ignore_properties u, ([] : List FileObject))) ∧
    ((todo.map (identityKey P.ignore_properties)).foldl (unallocStep P) st).new_unalloc =
      ((todo.map (identityKey P.ignore_properties)).foldl (unallocStep P) st).old_unalloc ∧
    ((todo.map (identityKey P.ignore_properties)).foldl (unallocStep P) st).changed =
      st.changed ∧
    ((todo.map (identityKey P.ignore_properties)).foldl (unallocStep P) st).unchanged =
      st.unchanged ++ todo.map (fun u => matchedEntry P u u) ∧
    ((todo.map (identityKey P.ignore_properties)).foldl (unallocStep P) st).deleted =
      st.deleted := by
  intro todo
  induction todo with
  | nil =>
    intro done st h1 h2 h3 _
    simp only [List.map_nil, List.foldl_nil, List.append_nil]
    simp only [List.map_nil, List.append_nil] at h2
    exact ⟨h1, h2, h3, trivial, trivial, trivial⟩
  | cons u rest ih =>
    intro done st h1 h2 h3 hnd
    rw [List.map_cons] at hnd
    have hdnone : Dict.get? done (identityKey P.ignore_properties u) = none := by
      refine Dict.get?_eq_none_iff.mpr ?_
      intro hmem
      rw [List.nodup_append] at hnd
      exact hnd.2.2 hmem (List.mem_cons_self _ _)
    have hgetO : Dict.get? st.old_unalloc (identityKey P.ignore_properties u) = some [u] := by
      rw [h2, List.map_cons]
      exact Dict.get?_append_hit hdnone [u] _
    have hgetN : Dict.get? st.new_unalloc (identityKey P.ignore_properties u) = some [u] := by
      rw [h3]
      exact hgetO
    have hstep : unallocStep P st (identityKey P.ignore_properties u) =
        { st with
          old_unalloc := Dict.set st.old_unalloc (identityKey P.ignore_properties u) [],
          new_unalloc := Dict.set st.new_unalloc (identityKey P.ignore_properties u) [],
          unchanged := st.unchanged ++ [matchedEntry P u u] } := by
      unfold unallocStep
      rw [hgetN, hgetO]
      simp [hret, compareToOriginal_self, Finset.empty_inter, ite_self, matchedEntry]
    have hsetO : Dict.set st.old_unalloc (identityKey P.ignore_properties u) [] =
        (done ++ [(identityKey P.ignore_properties u, ([] : List FileObject))]) ++
          rest.map (fun v => (identityKey P.ignore_properties v, [v])) := by
      rw [h2, List.map_cons, Dict.set_append_hit hdnone, List.append_assoc,
        List.singleton_append]
    have hsetN : Dict.set st.new_unalloc (identityKey P.ignore_properties u) [] =
        (done ++ [(identityKey P.ignore_properties u, ([] : List FileObject))]) ++
          rest.map (fun v => (identityKey P.ignore_properties v, [v])) := by
      rw [h3]
      exact hsetO
    have hnd2 : (((done ++ [(identityKey P.ignore_properties u,
        ([] : List FileObject))]).map Prod.fst) ++
        rest.map (identityKey P.ignore_properties)).Nodup := by
      rw [List.map_append, List.append_assoc]
      simpa using hnd
    rw [List.map_cons, List.foldl_cons, hstep]
    have hrest := ih (done ++ [(identityKey P.ignore_properties u, ([] : List FileObject))])
      { st with
        old_unalloc := Dict.set st.old_unalloc (identityKey P.ignore_properties u) [],
        new_unalloc := Dict.set st.new_unalloc (identityKey P.ignore_properties u) [],
        unchanged := st.unchanged ++ [matchedEntry P u u] }
      h1 hsetO (by rw [hsetN, hsetO]) hnd2
    refine ⟨hrest.1, ?_, hrest.2.2.1, hrest.2.2.2.1, ?_, hrest.2.2.2.2.2⟩
    · rw [hrest.2.1, List.map_cons, List.append_assoc, List.singleton_append]
    · rw [hrest.2.2.2.2.1, List.map_cons, List.append_assoc, List.singleton_append]

theorem flatten_zeroed (κ : FileObject → FKey) (f : FileObject → OutFile) :
    ∀ (L : List FileObject),
    ((L.map (fun u => (κ u, ([] : List FileObject)))).map
      (fun kv => kv.2.map f)).flatten = [] := by
  intro L
  induction L with
  | nil => rfl
  | cons x xs ih => simpa using ih

theorem map_obj_upd_matched (P : DiffParams) (am : Bool) :
    ∀ (L : List FileObject),
    (((L.map (fun r => matchedEntry P r r)).map
        (fun e => { e with annos := e.annos ∪ dset am "matched" })).map
      (fun e => e.obj)) = L := by
  intro L
  induction L with
  | nil => rfl
  | cons x xs ih => simpa [matchedEntry] using ih

/-! ## Claim C5: identity stability -/

/-- C5 (amended): when the two snapshots are the same record list, the
identity keys of its allocated records are pairwise distinct and its
unallocated identity keys are pairwise distinct (the assumptions the
program itself states), and unchanged records are retained, then the new,
deleted, renamed and changed sets are all empty and every record — in
particular every allocated file — is classified unchanged. -/
theorem identity_stability_amended (ignf : Option String → Bool) (P : DiffParams)
    (l : List FileObject)
    (hret : P.retain_unchanged = true)
    (hA : ((allocFiltered ignf l).map (identityKey P.ignore_properties)).Nodup)
    (hU : ((unallocFiltered ignf l).map (identityKey P.ignore_properties)).Nodup) :
    (make_differential_dfxml ignf P l l).newFiles = [] ∧
    (make_differential_dfxml ignf P l l).deletedFiles = [] ∧
    (make_differential_dfxml ignf P l l).renamedFiles = [] ∧
    (make_differential_dfxml ignf P l l).changedFiles = [] ∧
    (make_differential_dfxml ignf P l l).unchangedFiles.map (fun e => e.obj) =
      allocFiltered ignf l ++ unallocFiltered ignf l := by
  have hfisA : (scanPre P ignf l).1 =
      (allocFiltered ignf l).map (fun r => (identityKey P.ignore_properties r, r)) := by
    unfold scanPre
    rw [scanPre_fold_fis P ignf l [] [] (by simpa using hA)]
    simp
  have hunA : (scanPre P ignf l).2 =
      (unallocFiltered ignf l).map (fun r => (identityKey P.ignore_properties r, [r])) := by
    unfold scanPre
    rw [scanPre_fold_unalloc P ignf l [] [] (by simpa using hU)]
    simp
  have hB := scanPost_self P ignf hret l ⟨(scanPre P ignf l).1, [], [], [], []⟩
    (fun r hr => by
      show Dict.get? (scanPre P ignf l).1 (identityKey P.ignore_properties r) = some r
      rw [hfisA]
      exact get?_map_pairing (identityKey P.ignore_properties) (allocFiltered ignf l) r hA hr)
    hA (by simpa using hU)
  have hOld : (scanPost P ignf (scanPre P ignf l).1 l).old_fis = [] := by
    unfold scanPost
    rw [hB.1]
    show ((allocFiltered ignf l).map (identityKey P.ignore_properties)).foldl
      (fun d k => Dict.erase d k) (scanPre P ignf l).1 = []
    rw [hfisA]
    exact foldl_erase_pairing (identityKey P.ignore_properties) (allocFiltered ignf l)
  have hNewf : (scanPost P ignf (scanPre P ignf l).1 l).new_fis = [] := by
    unfold scanPost
    rw [hB.2.1]
  have hNU : (scanPost P ignf (scanPre P ignf l).1 l).new_unalloc =
      (unallocFiltered ignf l).map (fun r => (identityKey P.ignore_properties r, [r])) := by
    unfold scanPost
    rw [hB.2.2.1]
    simp
  have hCh : (scanPost P ignf (scanPre P ignf l).1 l).changed = [] := by
    unfold scanPost
    rw [hB.2.2.2.1]
  have hUn : (scanPost P ignf (scanPre P ignf l).1 l).unchanged =
      (allocFiltered ignf l).map (fun r => matchedEntry P r r) := by
    unfold scanPost
    rw [hB.2.2.2.2]
    simp
  have hkeysNU : Dict.keys ((unallocFiltered ignf l).map
      (fun r => (identityKey P.ignore_properties r, [r]))) =
      (unallocFiltered ignf l).map (identityKey P.ignore_properties) := by
    unfold Dict.keys
    rw [List.map_map]
    rfl
  have hUF := unallocFold_self P hret (unallocFiltered ignf l) []
    ⟨[], (scanPre P ignf l).2,
      (unallocFiltered ignf l).map (fun r => (identityKey P.ignore_properties r, [r])),
      [], (allocFiltered ignf l).map (fun r => matchedEntry P r r), []⟩
    rfl (by rw [hunA]; simp) (by rw [hunA]) (by simpa using hU)
  have hUA : unallocPass P [] (scanPre P ignf l).2
      ((unallocFiltered ignf l).map (fun r => (identityKey P.ignore_properties r, [r])))
      [] ((allocFiltered ignf l).map (fun r => matchedEntry P r r)) =
      (((unallocFiltered ignf l).map (identityKey P.ignore_properties)).foldl
        (unallocStep P)
        ⟨[], (scanPre P ignf l).2,
          (unallocFiltered ignf l).map (fun r => (identityKey P.ignore_properties r, [r])),
          [], (allocFiltered ignf l).map (fun r => matchedEntry P r r), []⟩) := by
    unfold unallocPass
    rw [hkeysNU]
  simp only [make_differential_dfxml]
  rw [hOld, hNewf, hNU, hCh, hUn]
  rw [show renamePass P [] [] = (⟨[], [], []⟩ : RenameState) from rfl]
  dsimp only
  rw [show inodePass P [] [] [] = (⟨[], [], []⟩ : InodeState) from rfl]
  dsimp only
  rw [hUA]
  rw [hUF.1, hUF.2.2.1, hUF.2.1, hUF.2.2.2.1, hUF.2.2.2.2.1, hUF.2.2.2.2.2]
  unfold assemble
  refine ⟨?_, ?_, rfl, rfl, ?_⟩
  · simp only [List.map_nil, List.nil_append]
    exact flatten_zeroed _ _ _
  · simp only [List.map_nil, List.nil_append]
    exact flatten_zeroed _ _ _
  · simp only [List.nil_append, List.map_append]
    rw [map_obj_upd_matched, map_obj_upd_matched]

/-- C5 counterexample: with a duplicate identity key inside the (otherwise
identical) snapshots, identity stability fails — the second copy of the
record misses the already-popped key and is classified new, so the new set
is non-empty even though the two snapshots are identical. -/
theorem identity_stability_fails_on_duplicates :
    (make_differential_dfxml ignorable_name PallR [exA, exA] [exA, exA]).newFiles ≠ [] ∧
    (make_differential_dfxml ignorable_name PallR [exA, exA] [exA, exA]).newFiles.map
      (fun e => e.obj) = [exA] := by
  refine ⟨by decide, by decide⟩

/-- Witness for the amended C5 theorem on a concrete two-record
snapshot. -/
theorem identity_stability_amended_witness :
    (make_differential_dfxml ignorable_name PallR [exA, exU] [exA, exU]).newFiles = [] ∧
    (make_differential_dfxml ignorable_name PallR [exA, exU] [exA, exU]).deletedFiles = [] ∧
    (make_differential_dfxml ignorable_name PallR [exA, exU] [exA, exU]).renamedFiles = [] ∧
    (make_differential_dfxml ignorable_name PallR [exA, exU] [exA, exU]).changedFiles = [] ∧
    (make_differential_dfxml ignorable_name PallR [exA, exU] [exA, exU]).unchangedFiles.map
        (fun e => e.obj) =
      allocFiltered ignorable_name [exA, exU] ++ unallocFiltered ignorable_name [exA, exU] :=
  identity_stability_amended ignorable_name PallR [exA, exU] (by decide) (by decide) (by decide)

/-! ### Conservation lemmas for the classification partition (claim C1) -/

namespace Dict

variable {α β : Type} [DecidableEq α]

theorem vals_perm_of_get? {d : Dict α β} {k : α} {v : β} (h : get? d k = some v) :
    (d.map (fun kv => kv.2)).Perm (v :: (erase d k).map (fun kv => kv.2)) := by
  induction d with
  | nil => exact absurd h (by simp [get?])
  | cons x rest ih =>
    by_cases hx : x.1 = k
    · have hv : x.2 = v := by
        have := h
        rw [show get? (x :: rest) k = some x.2 from by simp [get?, hx]] at this
        exact Option.some.inj this
      rw [show erase (x :: rest) k = rest from by simp [erase, hx], List.map_cons, hv]
    · have h2 : get? rest k = some v := by
        have := h
        rw [show get? (x :: rest) k = get? rest k from by simp [get?, hx]] at this
        exact this
      rw [show erase (x :: rest) k = x :: erase rest k from by simp [erase, hx]]
      rw [List.map_cons, List.map_cons]
      exact ((ih h2).cons x.2).trans (List.Perm.swap v x.2 _)

theorem mem_vals_of_get? {d : Dict α β} {k : α} {v : β} (h : get? d k = some v) :
    v ∈ d.map (fun kv => kv.2) :=
  ((vals_perm_of_get? h).mem_iff).mpr (List.mem_cons_self v _)

theorem vals_erase_subset {d : Dict α β} (k : α) {x : β}
    (hx : x ∈ (erase d k).map (fun kv => kv.2)) : x ∈ d.map (fun kv => kv.2) := by
  induction d with
  | nil => simpa [erase] using hx
  | cons y rest ih =>
    by_cases hy : y.1 = k
    · rw [show erase (y :: rest) k = rest from by simp [erase, hy]] at hx
      exact List.mem_cons_of_mem y.2 hx
    · rw [show erase (y :: rest) k = y :: erase rest k from by simp [erase, hy],
        List.map_cons] at hx
      rcases List.mem_cons.mp hx with h | h
      · exact List.mem_cons.mpr (Or.inl h)
      · exact List.mem_cons_of_mem y.2 (ih h)

end Dict

theorem uvals_cons (y : FKey × List FileObject) (rest : Dict FKey (List FileObject)) :
    uvals (y :: rest) = y.2 ++ uvals rest := rfl

theorem mem_uvals_of_get? {u : Dict FKey (List FileObject)} {k : FKey}
    {L : List FileObject} (h : Dict.get? u k = some L) {x : FileObject} (hx : x ∈ L) :
    x ∈ uvals u :=
  List.mem_flatten.mpr ⟨L, Dict.mem_vals_of_get? h, hx⟩

theorem mem_uvals_set {u : Dict FKey (List FileObject)} {k : FKey} {L : List FileObject}
    {x : FileObject} (hx : x ∈ uvals (Dict.set u k L)) : x ∈ uvals u ∨ x ∈ L := by
  induction u with
  | nil => exact Or.inr (by simpa [Dict.set, uvals] using hx)
  | cons y rest ih =>
    by_cases hy : y.1 = k
    · rw [show Dict.set (y :: rest) k L = (y.1, L) :: rest from by simp [Dict.set, hy],
        uvals_cons] at hx
      rcases List.mem_append.mp hx with h | h
      · exact Or.inr h
      · exact Or.inl (by rw [uvals_cons]; exact List.mem_append_right y.2 h)
    · rw [show Dict.set (y :: rest) k L = y :: Dict.set rest k L from by simp [Dict.set, hy],
        uvals_cons] at hx
      rcases List.mem_append.mp hx with h | h
      · exact Or.inl (by rw [uvals_cons]; exact List.mem_append_left _ h)
      · rcases ih h with h2 | h2
        · exact Or.inl (by rw [uvals_cons]; exact List.mem_append_right y.2 h2)
        · exact Or.inr h2

theorem mem_uvals_push {u : Dict FKey (List FileObject)} {k : FKey} {v x : FileObject}
    (hx : x ∈ uvals (Dict.push u k v)) : x ∈ uvals u ∨ x = v := by
  unfold Dict.push at hx
  cases hg : Dict.get? u k with
  | some L =>
    rw [hg] at hx
    rcases mem_uvals_set hx with h | h
    · exact Or.inl h
    · rcases List.mem_append.mp h with h2 | h2
      · exact Or.inl (mem_uvals_of_get? hg h2)
      · exact Or.inr (List.mem_singleton.mp h2)
  | none =>
    rw [hg] at hx
    rcases mem_uvals_set hx with h | h
    · exact Or.inl h
    · exact Or.inr (List.mem_singleton.mp h)

theorem origsA_append (l₁ l₂ : List OutFile) :
    origsA (l₁ ++ l₂) = origsA l₁ ++ origsA l₂ := by
  simp [origsA, List.filterMap_append, List.filter_append]

theorem objsA_append (l₁ l₂ : List OutFile) :
    objsA (l₁ ++ l₂) = objsA l₁ ++ objsA l₂ := by
  simp [objsA, List.map_append, List.filter_append]

theorem origsA_matchedEntry_alloc (P : DiffParams) {old_fobj : FileObject}
    (fo : FileObject) (h : old_fobj.alloc = true) :
    origsA [matchedEntry P old_fobj fo] = [old_fobj] := by
  simp [origsA, matchedEntry, h]

theorem origsA_matchedEntry_unalloc (P : DiffParams) {old_fobj : FileObject}
    (fo : FileObject) (h : old_fobj.alloc = false) :
    origsA [matchedEntry P old_fobj fo] = [] := by
  simp [origsA, matchedEntry, h]

theorem objsA_matchedEntry_alloc (P : DiffParams) (old_fobj : FileObject)
    {fo : FileObject} (h : fo.alloc = true) :
    objsA [matchedEntry P old_fobj fo] = [fo] := by
  simp [objsA, matchedEntry, h]

theorem objsA_matchedEntry_unalloc (P : DiffParams) (old_fobj : FileObject)
    {fo : FileObject} (h : fo.alloc = false) :
    objsA [matchedEntry P old_fobj fo] = [] := by
  simp [objsA, matchedEntry, h]

theorem allocFiltered_allAlloc (ignf : Option String → Bool) (l : List FileObject) :
    allAlloc (allocFiltered ignf l) := by
  intro f hf
  have := List.of_mem_filter hf
  simp only [Bool.and_eq_true] at this
  exact this.2

theorem unallocFiltered_allUnalloc (ignf : Option String → Bool) (l : List FileObject) :
    allUnalloc (unallocFiltered ignf l) := by
  intro f hf
  have := List.of_mem_filter hf
  simp only [Bool.and_eq_true, Bool.not_eq_true'] at this
  exact this.2

theorem fvals_pairing (κ : FileObject → FKey) :
    ∀ (L : List FileObject), fvals (L.map (fun r => (κ r, r))) = L := by
  intro L
  induction L with
  | nil => rfl
  | cons x xs ih => simpa [fvals] using ih

/-- The direct-lookup hit that finds a change (source lines 249-264,
changed branch). -/
theorem stepPost_hit_changed (P : DiffParams) (ignf : Option String → Bool)
    (st : StateB) (fo old_fobj : FileObject)
    (hig : ignf fo.filename = false) (hal : fo.alloc = true)
    (hget : Dict.get? st.old_fis (identityKey P.ignore_properties fo) = some old_fobj)
    (hds : filteredDiff P old_fobj fo ≠ ∅) :
    stepPost P ignf st fo =
      { st with old_fis := Dict.erase st.old_fis (identityKey P.ignore_properties fo),
                changed := st.changed ++ [matchedEntry P old_fobj fo] } := by
  unfold stepPost
  rw [hig, hal]
  simp only [Bool.false_eq_true, if_false, Bool.not_true, hget]
  rw [if_pos (show (if diffMaskSet P.diff_mode ≠ ∅ then
      (compareToOriginal old_fobj fo P.ignore_properties \ P.ignore_properties) ∩
        diffMaskSet P.diff_mode
    else compareToOriginal old_fobj fo P.ignore_properties \ P.ignore_properties) ≠ ∅ from
      hds)]
  rfl

/-- The direct-lookup miss (source lines 269-271). -/
theorem stepPost_miss (P : DiffParams) (ignf : Option String → Bool)
    (st : StateB) (fo : FileObject)
    (hig : ignf fo.filename = false) (hal : fo.alloc = true)
    (hget : Dict.get? st.old_fis (identityKey P.ignore_properties fo) = none) :
    stepPost P ignf st fo =
      { st with new_fis := Dict.set st.new_fis (identityKey P.ignore_properties fo) fo } := by
  unfold stepPost
  rw [hig, hal]
  simp only [Bool.false_eq_true, if_false, Bool.not_true, hget]

theorem scanPost_conserv (P : DiffParams) (ignf : Option String → Bool)
    (hret : P.retain_unchanged = true) :
    ∀ (l : List FileObject) (st : StateB),
    ((st.new_fis.map Prod.fst) ++
      ((allocFiltered ignf l).map (identityKey P.ignore_properties))).Nodup →
    allAlloc (fvals st.old_fis) → allAlloc (fvals st.new_fis) →
    allUnalloc (uvals st.new_unalloc) →
    ((↑(fvals (l.foldl (stepPost P ignf) st).old_fis) +
      ↑(origsA (l.foldl (stepPost P ignf) st).changed) +
      ↑(origsA (l.foldl (stepPost P ignf) st).unchanged) : Multiset FileObject) =
      ↑(fvals st.old_fis) + ↑(origsA st.changed) + ↑(origsA st.unchanged)) ∧
    ((↑(objsA (l.foldl (stepPost P ignf) st).changed) +
      ↑(objsA (l.foldl (stepPost P ignf) st).unchanged) +
      ↑(fvals (l.foldl (stepPost P ignf) st).new_fis) : Multiset FileObject) =
      ↑(objsA st.changed) + ↑(objsA st.unchanged) + ↑(fvals st.new_fis) +
        ↑(allocFiltered ignf l)) ∧
    allAlloc (fvals (l.foldl (stepPost P ignf) st).old_fis) ∧
    allAlloc (fvals (l.foldl (stepPost P ignf) st).new_fis) ∧
    allUnalloc (uvals (l.foldl (stepPost P ignf) st).new_unalloc) := by
  intro l
  induction l with
  | nil =>
    intro st _ h1 h2 h3
    refine ⟨rfl, ?_, h1, h2, h3⟩
    simp [allocFiltered]
  | cons fo rest ih =>
    intro st hnd hOld hNew hUn
    by_cases hig : ignf fo.filename
    · have hfA : allocFiltered ignf (fo :: rest) = allocFiltered ignf rest := by
        simp [allocFiltered, hig]
      rw [hfA] at hnd
      rw [List.foldl_cons, stepPost_ignored P ignf st fo hig, hfA]
      exact ih st hnd hOld hNew hUn
    · have hig2 : ignf fo.filename = false := by
        cases hc : ignf fo.filename
        · rfl
        · exact absurd hc hig
      by_cases hal : fo.alloc
      · have hfA : allocFiltered ignf (fo :: rest) = fo :: allocFiltered ignf rest := by
          simp [allocFiltered, hig, hal]
        rw [hfA] at hnd
        rw [List.foldl_cons, hfA]
        cases hg : Dict.get? st.old_fis (identityKey P.ignore_properties fo) with
        | some old_fobj =>
          have hoa : old_fobj.alloc = true := hOld old_fobj (Dict.mem_vals_of_get? hg)
          have hpop : (↑(fvals st.old_fis) : Multiset FileObject) =
              old_fobj ::ₘ ↑(fvals (Dict.erase st.old_fis
                (identityKey P.ignore_properties fo))) :=
            Multiset.coe_eq_coe.mpr (Dict.vals_perm_of_get? hg)
          have hallocE : allAlloc (fvals (Dict.erase st.old_fis
              (identityKey P.ignore_properties fo))) :=
            fun f hf => hOld f (Dict.vals_erase_subset _ hf)
          have hndr : ((st.new_fis.map Prod.fst) ++
              ((allocFiltered ignf rest).map (identityKey P.ignore_properties))).Nodup := by
            rw [List.map_cons] at hnd
            exact List.Nodup.sublist
              (List.Sublist.append (List.Sublist.refl _) (List.sublist_cons_self _ _)) hnd
          by_cases hds : filteredDiff P old_fobj fo = ∅
          · rw [stepPost_hit_unchanged P ignf st fo old_fobj hig2 hal hg hds hret]
            have hres := ih { st with
                old_fis := Dict.erase st.old_fis (identityKey P.ignore_properties fo),
                unchanged := st.unchanged ++ [matchedEntry P old_fobj fo] }
              hndr hallocE hNew hUn
            refine ⟨?_, ?_, hres.2.2.1, hres.2.2.2.1, hres.2.2.2.2⟩
            · rw [hres.1]
              show (↑(fvals (Dict.erase st.old_fis (identityKey P.ignore_properties fo))) +
                ↑(origsA st.changed) +
                ↑(origsA (st.unchanged ++ [matchedEntry P old_fobj fo])) :
                  Multiset FileObject) = _
              rw [origsA_append, origsA_matchedEntry_alloc P fo hoa, hpop]
              simp only [← Multiset.coe_add, ← Multiset.cons_coe, ← Multiset.singleton_add,
                Multiset.coe_nil, add_zero, Multiset.coe_singleton]
              abel
            · rw [hres.2.1]
              show (↑(objsA st.changed) +
                ↑(objsA (st.unchanged ++ [matchedEntry P old_fobj fo])) +
                ↑(fvals st.new_fis) + ↑(allocFiltered ignf rest) : Multiset FileObject) = _
              rw [objsA_append, objsA_matchedEntry_alloc P old_fobj hal]
              simp only [← Multiset.coe_add, ← Multiset.cons_coe, ← Multiset.singleton_add,
                Multiset.coe_nil, add_zero, Multiset.coe_singleton]
              abel
          · rw [stepPost_hit_changed P ignf st fo old_fobj hig2 hal hg hds]
            have hres := ih { st with
                old_fis := Dict.erase st.old_fis (identityKey P.ignore_properties fo),
                changed := st.changed ++ [matchedEntry P old_fobj fo] }
              hndr hallocE hNew hUn
            refine ⟨?_, ?_, hres.2.2.1, hres.2.2.2.1, hres.2.2.2.2⟩
            · rw [hres.1]
              show (↑(fvals (Dict.erase st.old_fis (identityKey P.ignore_properties fo))) +
                ↑(origsA (st.changed ++ [matchedEntry P old_fobj fo])) +
                ↑(origsA st.unchanged) : Multiset FileObject) = _
              rw [origsA_append, origsA_matchedEntry_alloc P fo hoa, hpop]
              simp only [← Multiset.coe_add, ← Multiset.cons_coe, ← Multiset.singleton_add,
                Multiset.coe_nil, add_zero, Multiset.coe_singleton]
              abel
            · rw [hres.2.1]
              show (↑(objsA (st.changed ++ [matchedEntry P old_fobj fo])) +
                ↑(objsA st.unchanged) +
                ↑(fvals st.new_fis) + ↑(allocFiltered ignf rest) : Multiset FileObject) = _
              rw [objsA_append, objsA_matchedEntry_alloc P old_fobj hal]
              simp only [← Multiset.coe_add, ← Multiset.cons_coe, ← Multiset.singleton_add,
                Multiset.coe_nil, add_zero, Multiset.coe_singleton]
              abel
        | none =>
          rw [stepPost_miss P ignf st fo hig2 hal hg]
          rw [List.map_cons] at hnd
          have hfresh : Dict.get? st.new_fis (identityKey P.ignore_properties fo) = none := by
            refine Dict.get?_eq_none_iff.mpr ?_
            intro hmem
            rw [List.nodup_append] at hnd
            exact hnd.2.2 hmem (List.mem_cons_self _ _)
          have hset : Dict.set st.new_fis (identityKey P.ignore_properties fo) fo =
              st.new_fis ++ [(identityKey P.ignore_properties fo, fo)] :=
            Dict.set_eq_append_of_get?_none fo hfresh
          have hndr : (((st.new_fis ++
              [(identityKey P.ignore_properties fo, fo)]).map Prod.fst) ++
              ((allocFiltered ignf rest).map (identityKey P.ignore_properties))).Nodup := by
            rw [List.map_append, List.append_assoc]
            simpa using hnd
          have hres := ih { st with new_fis := Dict.set st.new_fis (identityKey P.ignore_properties fo) fo } (by rw [hset]; exact hndr) hOld
            (by
              show allAlloc (fvals (Dict.set st.new_fis (identityKey P.ignore_properties fo) fo))
              rw [hset, show fvals (st.new_fis ++ [(identityKey P.ignore_properties fo, fo)]) =
                fvals st.new_fis ++ [fo] from by simp [fvals]]
              intro f hf
              rcases List.mem_append.mp hf with h | h
              · exact hNew f h
              · rw [List.mem_singleton.mp h]
                exact hal)
            hUn
          refine ⟨hres.1, ?_, hres.2.2.1, hres.2.2.2.1, hres.2.2.2.2⟩
          rw [hres.2.1]
          show (↑(objsA st.changed) + ↑(objsA st.unchanged) +
            ↑(fvals (Dict.set st.new_fis (identityKey P.ignore_properties fo) fo)) +
            ↑(allocFiltered ignf rest) : Multiset FileObject) = _
          rw [hset]
          show (↑(objsA st.changed) + ↑(objsA st.unchanged) +
            ↑(fvals (st.new_fis ++ [(identityKey P.ignore_properties fo, fo)])) +
            ↑(allocFiltered ignf rest) : Multiset FileObject) = _
          rw [show fvals (st.new_fis ++ [(identityKey P.ignore_properties fo, fo)]) =
            fvals st.new_fis ++ [fo] from by simp [fvals]]
          simp only [← Multiset.coe_add, ← Multiset.cons_coe, ← Multiset.singleton_add,
            Multiset.coe_nil, add_zero, Multiset.coe_singleton]
          abel
      · have hal2 : fo.alloc = false := by
          cases hc : fo.alloc
          · rfl
          · exact absurd hc hal
        have hfA : allocFiltered ignf (fo :: rest) = allocFiltered ignf rest := by
          simp [allocFiltered, hig, hal]
        rw [hfA] at hnd
        rw [List.foldl_cons, stepPost_unalloc P ignf st fo hig2 hal2, hfA]
        refine ih _ hnd hOld hNew ?_
        intro f hf
        rcases mem_uvals_push hf with h | h
        · exact hUn f h
        · rw [h]
          exact hal2

theorem origsA_cons (e : OutFile) (l : List OutFile) :
    origsA (e :: l) = (match e.original with
      | some f => if f.alloc then f :: origsA l else origsA l
      | none => origsA l) := by
  unfold origsA
  cases ho : e.original with
  | none => simp [List.filterMap_cons, ho]
  | some f =>
    cases ha : f.alloc with
    | true => simp [List.filterMap_cons, ho, List.filter_cons, ha]
    | false => simp [List.filterMap_cons, ho, List.filter_cons, ha]

theorem objsA_cons (e : OutFile) (l : List OutFile) :
    objsA (e :: l) = if e.obj.alloc then e.obj :: objsA l else objsA l := by
  unfold objsA
  cases ha : e.obj.alloc with
  | true => simp [List.filter_cons, ha]
  | false => simp [List.filter_cons, ha]

theorem origsA_nil_eq : origsA [] = [] := rfl

theorem objsA_nil_eq : objsA [] = [] := rfl

theorem fvals_nil_eq : fvals [] = [] := rfl

theorem origsA_nil : ∀ (l : List OutFile),
    (∀ e ∈ l, ∀ f, e.original = some f → f.alloc = false) → origsA l = [] := by
  intro l
  induction l with
  | nil => intro _; rfl
  | cons e rest ih =>
    intro h
    rw [origsA_cons]
    cases ho : e.original with
    | none => exact ih (fun x hx f hf => h x (List.mem_cons_of_mem _ hx) f hf)
    | some f =>
      have hf : f.alloc = false := h e (List.mem_cons_self _ _) f ho
      simp only [hf, Bool.false_eq_true, if_false]
      exact ih (fun x hx g hg => h x (List.mem_cons_of_mem _ hx) g hg)

theorem objsA_nil : ∀ (l : List OutFile),
    (∀ e ∈ l, e.obj.alloc = false) → objsA l = [] := by
  intro l
  induction l with
  | nil => intro _; rfl
  | cons e rest ih =>
    intro h
    rw [objsA_cons]
    have hf : e.obj.alloc = false := h e (List.mem_cons_self _ _)
    simp only [hf, Bool.false_eq_true, if_false]
    exact ih (fun x hx => h x (List.mem_cons_of_mem _ hx))

theorem origsA_map_pres (f : OutFile → OutFile)
    (h : ∀ e, (f e).original = e.original) :
    ∀ (l : List OutFile), origsA (l.map f) = origsA l := by
  intro l
  induction l with
  | nil => rfl
  | cons e rest ih => rw [List.map_cons, origsA_cons, origsA_cons, h e, ih]

theorem objsA_map_pres (f : OutFile → OutFile)
    (h : ∀ e, (f e).obj = e.obj) :
    ∀ (l : List OutFile), objsA (l.map f) = objsA l := by
  intro l
  induction l with
  | nil => rfl
  | cons e rest ih => rw [List.map_cons, objsA_cons, objsA_cons, h e, ih]

theorem origsA_placeholders : ∀ (m : Dict FKey FileObject), allAlloc (fvals m) →
    origsA (m.map (fun kv => deletedPlaceholder kv.2)) = fvals m := by
  intro m
  induction m with
  | nil => intro _; rfl
  | cons x rest ih =>
    intro h
    rw [List.map_cons, origsA_cons]
    have hx : x.2.alloc = true := h x.2 (List.mem_cons_self _ _)
    rw [show (deletedPlaceholder x.2).original = some x.2 from rfl]
    simp only [hx, if_true]
    rw [ih (fun g hg => h g (List.mem_cons_of_mem _ hg))]
    rfl

theorem objsA_newOuts : ∀ (m : Dict FKey FileObject), allAlloc (fvals m) →
    objsA (m.map (fun kv => newOut kv.2)) = fvals m := by
  intro m
  induction m with
  | nil => intro _; rfl
  | cons x rest ih =>
    intro h
    rw [List.map_cons, objsA_cons]
    have hx : x.2.alloc = true := h x.2 (List.mem_cons_self _ _)
    rw [show (newOut x.2).obj = x.2 from rfl]
    simp only [hx, if_true]
    rw [ih (fun g hg => h g (List.mem_cons_of_mem _ hg))]
    rfl

theorem allUnalloc_uvals_set_nil {u : Dict FKey (List FileObject)} (k : FKey)
    (h : allUnalloc (uvals u)) : allUnalloc (uvals (Dict.set u k [])) := by
  intro f hf
  rcases mem_uvals_set hf with h2 | h2
  · exact h f h2
  · cases h2

theorem scanPre_unalloc_allUnalloc (P : DiffParams) (ignf : Option String → Bool) :
    ∀ (l : List FileObject) (F : Dict FKey FileObject) (U : Dict FKey (List FileObject)),
    allUnalloc (uvals U) → allUnalloc (uvals (l.foldl (stepPre P ignf) (F, U)).2) := by
  intro l
  induction l with
  | nil => intro F U h; exact h
  | cons fo rest ih =>
    intro F U h
    rw [List.foldl_cons]
    cases hig : ignf fo.filename with
    | true =>
      rw [show stepPre P ignf (F, U) fo = (F, U) from by simp [stepPre, hig]]
      exact ih F U h
    | false =>
      cases hal : fo.alloc with
      | true =>
        rw [show stepPre P ignf (F, U) fo =
          (Dict.set F (identityKey P.ignore_properties fo) fo, U) from by
            simp [stepPre, hig, hal]]
        exact ih _ U h
      | false =>
        rw [show stepPre P ignf (F, U) fo =
          (F, Dict.push U (identityKey P.ignore_properties fo) fo) from by
            simp [stepPre, hig, hal]]
        refine ih F _ ?_
        intro f hf
        rcases mem_uvals_push hf with h2 | h2
        · exact h f h2
        · rw [h2]; exact hal

theorem renameStep_conserv (P : DiffParams)
    (oin nin : Dict (Option Nat × Option Nat) (List (Option String)))
    (st : RenameState) (k : Option Nat × Option Nat)
    (hOld : allAlloc (fvals st.old_fis)) (hNew : allAlloc (fvals st.new_fis)) :
    ((↑(fvals (renameStep P oin nin st k).old_fis) +
      ↑(origsA (renameStep P oin nin st k).renamed) : Multiset FileObject) =
      ↑(fvals st.old_fis) + ↑(origsA st.renamed)) ∧
    ((↑(fvals (renameStep P oin nin st k).new_fis) +
      ↑(objsA (renameStep P oin nin st k).renamed) : Multiset FileObject) =
      ↑(fvals st.new_fis) + ↑(objsA st.renamed)) ∧
    allAlloc (fvals (renameStep P oin nin st k).old_fis) ∧
    allAlloc (fvals (renameStep P oin nin st k).new_fis) := by
  unfold renameStep
  repeat' split
  all_goals try exact ⟨rfl, rfl, hOld, hNew⟩
  rename_i x1 nnv hn x2 onv ho y1 y2 old_fobj new_obj h3 h4 h5
  dsimp only
  have hoa : old_fobj.alloc = true := hOld _ (Dict.mem_vals_of_get? h3)
  have hna : new_obj.alloc = true := hNew _ (Dict.mem_vals_of_get? h4)
  have hE : ({ obj := new_obj, original := some old_fobj, diffs := compareToOriginal old_fobj new_obj P.ignore_properties } : OutFile) = matchedEntry P old_fobj new_obj := rfl
  have hpopO : (↑(fvals st.old_fis) : Multiset FileObject) =
      old_fobj ::ₘ ↑(fvals (Dict.erase st.old_fis (k.1, k.2, onv))) :=
    Multiset.coe_eq_coe.mpr (Dict.vals_perm_of_get? h3)
  have hpopN : (↑(fvals st.new_fis) : Multiset FileObject) =
      new_obj ::ₘ ↑(fvals (Dict.erase st.new_fis (k.1, k.2, nnv))) :=
    Multiset.coe_eq_coe.mpr (Dict.vals_perm_of_get? h4)
  refine ⟨?_, ?_, fun f hf => hOld f (Dict.vals_erase_subset _ hf),
    fun f hf => hNew f (Dict.vals_erase_subset _ hf)⟩
  · rw [hE, origsA_append, origsA_matchedEntry_alloc P new_obj hoa, hpopO]
    simp only [← Multiset.coe_add, ← Multiset.cons_coe, ← Multiset.singleton_add,
      Multiset.coe_nil, add_zero, Multiset.coe_singleton]
    abel
  · rw [hE, objsA_append, objsA_matchedEntry_alloc P old_fobj hna, hpopN]
    simp only [← Multiset.coe_add, ← Multiset.cons_coe, ← Multiset.singleton_add,
      Multiset.coe_nil, add_zero, Multiset.coe_singleton]
    abel

theorem renameFold_conserv (P : DiffParams)
    (oin nin : Dict (Option Nat × Option Nat) (List (Option String))) :
    ∀ (ks : List (Option Nat × Option Nat)) (st : RenameState),
    allAlloc (fvals st.old_fis) → allAlloc (fvals st.new_fis) →
    ((↑(fvals (ks.foldl (renameStep P oin nin) st).old_fis) +
      ↑(origsA (ks.foldl (renameStep P oin nin) st).renamed) : Multiset FileObject) =
      ↑(fvals st.old_fis) + ↑(origsA st.renamed)) ∧
    ((↑(fvals (ks.foldl (renameStep P oin nin) st).new_fis) +
      ↑(objsA (ks.foldl (renameStep P oin nin) st).renamed) : Multiset FileObject) =
      ↑(fvals st.new_fis) + ↑(objsA st.renamed)) ∧
    allAlloc (fvals (ks.foldl (renameStep P oin nin) st).old_fis) ∧
    allAlloc (fvals (ks.foldl (renameStep P oin nin) st).new_fis) := by
  intro ks
  induction ks with
  | nil => intro st h1 h2; exact ⟨rfl, rfl, h1, h2⟩
  | cons k rest ih =>
    intro st h1 h2
    rw [List.foldl_cons]
    have hs := renameStep_conserv P oin nin st k h1 h2
    have hr := ih (renameStep P oin nin st k) hs.2.2.1 hs.2.2.2
    exact ⟨hr.1.trans hs.1, hr.2.1.trans hs.2.1, hr.2.2.1, hr.2.2.2⟩

theorem inodeStep_conserv (P : DiffParams)
    (onm nnm : Dict (Option Nat × Option String) (Option Nat))
    (st : InodeState) (k : Option Nat × Option String)
    (hOld : allAlloc (fvals st.old_fis)) (hNew : allAlloc (fvals st.new_fis)) :
    ((↑(fvals (inodeStep P onm nnm st k).old_fis) +
      ↑(origsA (inodeStep P onm nnm st k).changed) : Multiset FileObject) =
      ↑(fvals st.old_fis) + ↑(origsA st.changed)) ∧
    ((↑(fvals (inodeStep P onm nnm st k).new_fis) +
      ↑(objsA (inodeStep P onm nnm st k).changed) : Multiset FileObject) =
      ↑(fvals st.new_fis) + ↑(objsA st.changed)) ∧
    allAlloc (fvals (inodeStep P onm nnm st k).old_fis) ∧
    allAlloc (fvals (inodeStep P onm nnm st k).new_fis) := by
  unfold inodeStep
  repeat' split
  all_goals try exact ⟨rfl, rfl, hOld, hNew⟩
  rename_i xa xb oi ni ha hb yc yd old_fobj new_obj h3 h4
  dsimp only
  have hoa : old_fobj.alloc = true := hOld _ (Dict.mem_vals_of_get? h3)
  have hna : new_obj.alloc = true := hNew _ (Dict.mem_vals_of_get? h4)
  have hE : ({ obj := new_obj, original := some old_fobj, diffs := compareToOriginal old_fobj new_obj P.ignore_properties } : OutFile) = matchedEntry P old_fobj new_obj := rfl
  have hpopO : (↑(fvals st.old_fis) : Multiset FileObject) =
      old_fobj ::ₘ ↑(fvals (Dict.erase st.old_fis (k.1, oi, k.2))) :=
    Multiset.coe_eq_coe.mpr (Dict.vals_perm_of_get? h3)
  have hpopN : (↑(fvals st.new_fis) : Multiset FileObject) =
      new_obj ::ₘ ↑(fvals (Dict.erase st.new_fis (k.1, ni, k.2))) :=
    Multiset.coe_eq_coe.mpr (Dict.vals_perm_of_get? h4)
  refine ⟨?_, ?_, fun f hf => hOld f (Dict.vals_erase_subset _ hf),
    fun f hf => hNew f (Dict.vals_erase_subset _ hf)⟩
  · rw [hE, origsA_append, origsA_matchedEntry_alloc P new_obj hoa, hpopO]
    simp only [← Multiset.coe_add, ← Multiset.cons_coe, ← Multiset.singleton_add,
      Multiset.coe_nil, add_zero, Multiset.coe_singleton]
    abel
  · rw [hE, objsA_append, objsA_matchedEntry_alloc P old_fobj hna, hpopN]
    simp only [← Multiset.coe_add, ← Multiset.cons_coe, ← Multiset.singleton_add,
      Multiset.coe_nil, add_zero, Multiset.coe_singleton]
    abel

theorem inodeFold_conserv (P : DiffParams)
    (onm nnm : Dict (Option Nat × Option String) (Option Nat)) :
    ∀ (ks : List (Option Nat × Option String)) (st : InodeState),
    allAlloc (fvals st.old_fis) → allAlloc (fvals st.new_fis) →
    ((↑(fvals (ks.foldl (inodeStep P onm nnm) st).old_fis) +
      ↑(origsA (ks.foldl (inodeStep P onm nnm) st).changed) : Multiset FileObject) =
      ↑(fvals st.old_fis) + ↑(origsA st.changed)) ∧
    ((↑(fvals (ks.foldl (inodeStep P onm nnm) st).new_fis) +
      ↑(objsA (ks.foldl (inodeStep P onm nnm) st).changed) : Multiset FileObject) =
      ↑(fvals st.new_fis) + ↑(objsA st.changed)) ∧
    allAlloc (fvals (ks.foldl (inodeStep P onm nnm) st).old_fis) ∧
    allAlloc (fvals (ks.foldl (inodeStep P onm nnm) st).new_fis) := by
  intro ks
  induction ks with
  | nil => intro st h1 h2; exact ⟨rfl, rfl, h1, h2⟩
  | cons k rest ih =>
    intro st h1 h2
    rw [List.foldl_cons]
    have hs := inodeStep_conserv P onm nnm st k h1 h2
    have hr := ih (inodeStep P onm nnm st k) hs.2.2.1 hs.2.2.2
    exact ⟨hr.1.trans hs.1, hr.2.1.trans hs.2.1, hr.2.2.1, hr.2.2.2⟩

theorem unalloc_content_changed (P : DiffParams) (st : UnallocState) (key : FKey)
    (new_obj old_fobj : FileObject)
    (hn : Dict.get? st.new_unalloc key = some [new_obj])
    (ho : Dict.get? st.old_unalloc key = some [old_fobj])
    (hOld : allAlloc (fvals st.old_fis)) (hOU : allUnalloc (uvals st.old_unalloc))
    (hNU : allUnalloc (uvals st.new_unalloc)) :
    ((↑(fvals st.old_fis) + ↑(origsA (st.changed ++ [matchedEntry P old_fobj new_obj])) +
      ↑(origsA st.unchanged) + ↑(origsA st.deleted) : Multiset FileObject) =
      ↑(fvals st.old_fis) + ↑(origsA st.changed) + ↑(origsA st.unchanged) +
        ↑(origsA st.deleted)) ∧
    ((↑(objsA (st.changed ++ [matchedEntry P old_fobj new_obj])) + ↑(objsA st.unchanged) +
      ↑(objsA st.deleted) : Multiset FileObject) =
      ↑(objsA st.changed) + ↑(objsA st.unchanged) + ↑(objsA st.deleted)) ∧
    allAlloc (fvals st.old_fis) ∧
    allUnalloc (uvals (Dict.set st.old_unalloc key [])) ∧
    allUnalloc (uvals (Dict.set st.new_unalloc key [])) := by
  have hoaf : old_fobj.alloc = false :=
    hOU _ (mem_uvals_of_get? ho (List.mem_singleton.mpr rfl))
  have hnof : new_obj.alloc = false :=
    hNU _ (mem_uvals_of_get? hn (List.mem_singleton.mpr rfl))
  refine ⟨?_, ?_, hOld, allUnalloc_uvals_set_nil key hOU, allUnalloc_uvals_set_nil key hNU⟩
  · rw [origsA_append, origsA_matchedEntry_unalloc P new_obj hoaf, List.append_nil]
  · rw [objsA_append, objsA_matchedEntry_unalloc P old_fobj hnof, List.append_nil]

theorem unalloc_content_unchanged (P : DiffParams) (st : UnallocState) (key : FKey)
    (new_obj old_fobj : FileObject)
    (hn : Dict.get? st.new_unalloc key = some [new_obj])
    (ho : Dict.get? st.old_unalloc key = some [old_fobj])
    (hOld : allAlloc (fvals st.old_fis)) (hOU : allUnalloc (uvals st.old_unalloc))
    (hNU : allUnalloc (uvals st.new_unalloc)) :
    ((↑(fvals st.old_fis) + ↑(origsA st.changed) +
      ↑(origsA (st.unchanged ++ [matchedEntry P old_fobj new_obj])) +
      ↑(origsA st.deleted) : Multiset FileObject) =
      ↑(fvals st.old_fis) + ↑(origsA st.changed) + ↑(origsA st.unchanged) +
        ↑(origsA st.deleted)) ∧
    ((↑(objsA st.changed) + ↑(objsA (st.unchanged ++ [matchedEntry P old_fobj new_obj])) +
      ↑(objsA st.deleted) : Multiset FileObject) =
      ↑(objsA st.changed) + ↑(objsA st.unchanged) + ↑(objsA st.deleted)) ∧
    allAlloc (fvals st.old_fis) ∧
    allUnalloc (uvals (Dict.set st.old_unalloc key [])) ∧
    allUnalloc (uvals (Dict.set st.new_unalloc key [])) := by
  have hoaf : old_fobj.alloc = false :=
    hOU _ (mem_uvals_of_get? ho (List.mem_singleton.mpr rfl))
  have hnof : new_obj.alloc = false :=
    hNU _ (mem_uvals_of_get? hn (List.mem_singleton.mpr rfl))
  refine ⟨?_, ?_, hOld, allUnalloc_uvals_set_nil key hOU, allUnalloc_uvals_set_nil key hNU⟩
  · rw [origsA_append, origsA_matchedEntry_unalloc P new_obj hoaf, List.append_nil]
  · rw [objsA_append, objsA_matchedEntry_unalloc P old_fobj hnof, List.append_nil]

theorem unalloc_deleted_branch (P : DiffParams) (st : UnallocState) (key : FKey)
    (new_obj old_fobj : FileObject)
    (hn : Dict.get? st.new_unalloc key = some [new_obj])
    (hfis : Dict.get? st.old_fis key = some old_fobj)
    (hOld : allAlloc (fvals st.old_fis)) (hOU : allUnalloc (uvals st.old_unalloc))
    (hNU : allUnalloc (uvals st.new_unalloc)) :
    ((↑(fvals (Dict.erase st.old_fis key)) + ↑(origsA st.changed) + ↑(origsA st.unchanged) +
      ↑(origsA (st.deleted ++ [matchedEntry P old_fobj new_obj])) : Multiset FileObject) =
      ↑(fvals st.old_fis) + ↑(origsA st.changed) + ↑(origsA st.unchanged) +
        ↑(origsA st.deleted)) ∧
    ((↑(objsA st.changed) + ↑(objsA st.unchanged) +
      ↑(objsA (st.deleted ++ [matchedEntry P old_fobj new_obj])) : Multiset FileObject) =
      ↑(objsA st.changed) + ↑(objsA st.unchanged) + ↑(objsA st.deleted)) ∧
    allAlloc (fvals (Dict.erase st.old_fis key)) ∧
    allUnalloc (uvals st.old_unalloc) ∧
    allUnalloc (uvals (Dict.set st.new_unalloc key [])) := by
  have hoa : old_fobj.alloc = true := hOld _ (Dict.mem_vals_of_get? hfis)
  have hnof : new_obj.alloc = false :=
    hNU _ (mem_uvals_of_get? hn (List.mem_singleton.mpr rfl))
  have hpop : (↑(fvals st.old_fis) : Multiset FileObject) =
      old_fobj ::ₘ ↑(fvals (Dict.erase st.old_fis key)) :=
    Multiset.coe_eq_coe.mpr (Dict.vals_perm_of_get? hfis)
  refine ⟨?_, ?_, fun f hf => hOld f (Dict.vals_erase_subset _ hf), hOU,
    allUnalloc_uvals_set_nil key hNU⟩
  · rw [origsA_append, origsA_matchedEntry_alloc P new_obj hoa, hpop]
    simp only [← Multiset.coe_add, ← Multiset.cons_coe, ← Multiset.singleton_add,
      Multiset.coe_nil, add_zero, Multiset.coe_singleton]
    abel
  · rw [objsA_append, objsA_matchedEntry_unalloc P old_fobj hnof, List.append_nil]

theorem unallocStep_conserv (P : DiffParams) (st : UnallocState) (key : FKey)
    (hOld : allAlloc (fvals st.old_fis)) (hOU : allUnalloc (uvals st.old_unalloc))
    (hNU : allUnalloc (uvals st.new_unalloc)) :
    ((↑(fvals (unallocStep P st key).old_fis) +
      ↑(origsA (unallocStep P st key).changed) +
      ↑(origsA (unallocStep P st key).unchanged) +
      ↑(origsA (unallocStep P st key).deleted) : Multiset FileObject) =
      ↑(fvals st.old_fis) + ↑(origsA st.changed) + ↑(origsA st.unchanged) +
        ↑(origsA st.deleted)) ∧
    ((↑(objsA (unallocStep P st key).changed) +
      ↑(objsA (unallocStep P st key).unchanged) +
      ↑(objsA (unallocStep P st key).deleted) : Multiset FileObject) =
      ↑(objsA st.changed) + ↑(objsA st.unchanged) + ↑(objsA st.deleted)) ∧
    allAlloc (fvals (unallocStep P st key).old_fis) ∧
    allUnalloc (uvals (unallocStep P st key).old_unalloc) ∧
    allUnalloc (uvals (unallocStep P st key).new_unalloc) := by
  unfold unallocStep
  dsimp only
  repeat' split
  all_goals try exact ⟨rfl, rfl, hOld, hOU, hNU⟩
  all_goals try exact ⟨rfl, rfl, hOld, allUnalloc_uvals_set_nil key hOU,
    allUnalloc_uvals_set_nil key hNU⟩
  · rename_i x1 new_obj hn x2 ol old_fobj ho hm hd
    exact unalloc_content_changed P st key new_obj old_fobj hn ho hOld hOU hNU
  · rename_i x1 new_obj hn x2 ol old_fobj ho hm hd hr
    exact unalloc_content_unchanged P st key new_obj old_fobj hn ho hOld hOU hNU
  · rename_i x1 new_obj hn x2 ol old_fobj ho hm hd
    exact unalloc_content_changed P st key new_obj old_fobj hn ho hOld hOU hNU
  · rename_i x1 new_obj hn x2 ol old_fobj ho hm hd hr
    exact unalloc_content_unchanged P st key new_obj old_fobj hn ho hOld hOU hNU
  · rename_i x1 new_obj hn x2 hno y old_fobj hfis
    exact unalloc_deleted_branch P st key new_obj old_fobj hn hfis hOld hOU hNU

theorem unallocFold_conserv (P : DiffParams) :
    ∀ (ks : List FKey) (st : UnallocState),
    allAlloc (fvals st.old_fis) → allUnalloc (uvals st.old_unalloc) →
    allUnalloc (uvals st.new_unalloc) →
    ((↑(fvals (ks.foldl (unallocStep P) st).old_fis) +
      ↑(origsA (ks.foldl (unallocStep P) st).changed) +
      ↑(origsA (ks.foldl (unallocStep P) st).unchanged) +
      ↑(origsA (ks.foldl (unallocStep P) st).deleted) : Multiset FileObject) =
      ↑(fvals st.old_fis) + ↑(origsA st.changed) + ↑(origsA st.unchanged) +
        ↑(origsA st.deleted)) ∧
    ((↑(objsA (ks.foldl (unallocStep P) st).changed) +
      ↑(objsA (ks.foldl (unallocStep P) st).unchanged) +
      ↑(objsA (ks.foldl (unallocStep P) st).deleted) : Multiset FileObject) =
      ↑(objsA st.changed) + ↑(objsA st.unchanged) + ↑(objsA st.deleted)) ∧
    allAlloc (fvals (ks.foldl (unallocStep P) st).old_fis) ∧
    allUnalloc (uvals (ks.foldl (unallocStep P) st).old_unalloc) ∧
    allUnalloc (uvals (ks.foldl (unallocStep P) st).new_unalloc) := by
  intro ks
  induction ks with
  | nil => intro st h1 h2 h3; exact ⟨rfl, rfl, h1, h2, h3⟩
  | cons k rest ih =>
    intro st h1 h2 h3
    rw [List.foldl_cons]
    have hs := unallocStep_conserv P st k h1 h2 h3
    have hr := ih (unallocStep P st k) hs.2.2.1 hs.2.2.2.1 hs.2.2.2.2
    exact ⟨hr.1.trans hs.1, hr.2.1.trans hs.2.1, hr.2.2.1, hr.2.2.2.1, hr.2.2.2.2⟩

theorem assemble_origsA (P : DiffParams) (new_fis : Dict FKey FileObject)
    (new_unalloc : Dict FKey (List FileObject)) (old_fis : Dict FKey FileObject)
    (old_unalloc : Dict FKey (List FileObject))
    (deletedL renamedL changedL unchangedL : List OutFile)
    (hOld : allAlloc (fvals old_fis)) (hOU : allUnalloc (uvals old_unalloc)) :
    (↑(origsA (allEntries (assemble P new_fis new_unalloc old_fis old_unalloc
        deletedL renamedL changedL unchangedL))) : Multiset FileObject) =
      ↑(origsA deletedL) + ↑(fvals old_fis) + ↑(origsA renamedL) +
        ↑(origsA changedL) + ↑(origsA unchangedL) := by
  unfold assemble allEntries
  dsimp only
  simp only [origsA_append]
  rw [origsA_nil (new_fis.map (fun kv => newOut kv.2)) (by
    intro e he f hf
    rcases List.mem_map.mp he with ⟨kv, _, rfl⟩
    simp [newOut] at hf)]
  rw [origsA_nil ((new_unalloc.map (fun kv => kv.2.map newOut)).flatten) (by
    intro e he f hf
    rcases List.mem_flatten.mp he with ⟨L, hL, heL⟩
    rcases List.mem_map.mp hL with ⟨kv, _, rfl⟩
    rcases List.mem_map.mp heL with ⟨g, _, rfl⟩
    simp [newOut] at hf)]
  rw [origsA_nil ((old_unalloc.map (fun kv => kv.2.map deletedPlaceholder)).flatten) (by
    intro e he f hf
    rcases List.mem_flatten.mp he with ⟨L, hL, heL⟩
    rcases List.mem_map.mp hL with ⟨kv, hkv, rfl⟩
    rcases List.mem_map.mp heL with ⟨g, hg, rfl⟩
    have hfe : g = f := by simpa [deletedPlaceholder] using hf
    rw [← hfe]
    exact hOU g (List.mem_flatten.mpr ⟨kv.2, List.mem_map.mpr ⟨kv, hkv, rfl⟩, hg⟩))]
  rw [origsA_placeholders old_fis hOld]
  rw [origsA_map_pres (annotateDeleted P.annotate_matches) (fun e => rfl) deletedL]
  rw [origsA_map_pres (annotateRenamed P.annotate_matches) (fun e => rfl) renamedL]
  rw [origsA_map_pres (annotateChanged P.annotate_matches) (fun e => rfl) changedL]
  rw [origsA_map_pres
    (fun e => { e with annos := e.annos ∪ dset P.annotate_matches "matched" })
    (fun e => rfl) unchangedL]
  simp only [← Multiset.coe_add, ← Multiset.cons_coe, ← Multiset.singleton_add,
    Multiset.coe_nil, add_zero, zero_add, List.append_nil, List.nil_append]

theorem assemble_objsA (P : DiffParams) (new_fis : Dict FKey FileObject)
    (new_unalloc : Dict FKey (List FileObject)) (old_fis : Dict FKey FileObject)
    (old_unalloc : Dict FKey (List FileObject))
    (deletedL renamedL changedL unchangedL : List OutFile)
    (hNew : allAlloc (fvals new_fis)) (hNU : allUnalloc (uvals new_unalloc)) :
    (↑(objsA (allEntries (assemble P new_fis new_unalloc old_fis old_unalloc
        deletedL renamedL changedL unchangedL))) : Multiset FileObject) =
      ↑(fvals new_fis) + ↑(objsA deletedL) + ↑(objsA renamedL) +
        ↑(objsA changedL) + ↑(objsA unchangedL) := by
  unfold assemble allEntries
  dsimp only
  simp only [objsA_append]
  rw [objsA_newOuts new_fis hNew]
  rw [objsA_nil ((new_unalloc.map (fun kv => kv.2.map newOut)).flatten) (by
    intro e he
    rcases List.mem_flatten.mp he with ⟨L, hL, heL⟩
    rcases List.mem_map.mp hL with ⟨kv, hkv, rfl⟩
    rcases List.mem_map.mp heL with ⟨g, hg, rfl⟩
    show g.alloc = false
    exact hNU g (List.mem_flatten.mpr ⟨kv.2, List.mem_map.mpr ⟨kv, hkv, rfl⟩, hg⟩))]
  rw [objsA_nil (old_fis.map (fun kv => deletedPlaceholder kv.2)) (by
    intro e he
    rcases List.mem_map.mp he with ⟨kv, _, rfl⟩
    rfl)]
  rw [objsA_nil ((old_unalloc.map (fun kv => kv.2.map deletedPlaceholder)).flatten) (by
    intro e he
    rcases List.mem_flatten.mp he with ⟨L, hL, heL⟩
    rcases List.mem_map.mp hL with ⟨kv, _, rfl⟩
    rcases List.mem_map.mp heL with ⟨g, _, rfl⟩
    rfl)]
  rw [objsA_map_pres (annotateDeleted P.annotate_matches) (fun e => rfl) deletedL]
  rw [objsA_map_pres (annotateRenamed P.annotate_matches) (fun e => rfl) renamedL]
  rw [objsA_map_pres (annotateChanged P.annotate_matches) (fun e => rfl) changedL]
  rw [objsA_map_pres
    (fun e => { e with annos := e.annos ∪ dset P.annotate_matches "matched" })
    (fun e => rfl) unchangedL]
  simp only [← Multiset.coe_add, ← Multiset.cons_coe, ← Multiset.singleton_add,
    Multiset.coe_nil, add_zero, zero_add, List.append_nil, List.nil_append]

theorem passes_conserv (P : DiffParams) (ignf : Option String → Bool)
    (hret : P.retain_unchanged = true)
    (old0 : Dict FKey FileObject) (oldU : Dict FKey (List FileObject))
    (post : List FileObject)
    (hnd : ((allocFiltered ignf post).map (identityKey P.ignore_properties)).Nodup)
    (hOld : allAlloc (fvals old0)) (hOU : allUnalloc (uvals oldU))
    (stB : StateB) (rn : RenameState) (ino : InodeState) (ua : UnallocState)
    (hstB : stB = scanPost P ignf old0 post)
    (hrn : rn = renamePass P stB.old_fis stB.new_fis)
    (hino : ino = inodePass P rn.old_fis rn.new_fis stB.changed)
    (hua : ua = unallocPass P ino.old_fis oldU stB.new_unalloc ino.changed stB.unchanged) :
    ((↑(origsA (allEntries (assemble P ino.new_fis ua.new_unalloc ua.old_fis ua.old_unalloc
        ua.deleted rn.renamed ua.changed ua.unchanged))) : Multiset FileObject) =
      ↑(fvals old0)) ∧
    ((↑(objsA (allEntries (assemble P ino.new_fis ua.new_unalloc ua.old_fis ua.old_unalloc
        ua.deleted rn.renamed ua.changed ua.unchanged))) : Multiset FileObject) =
      ↑(allocFiltered ignf post)) := by
  have hB := scanPost_conserv P ignf hret post ⟨old0, [], [], [], []⟩
    (by simpa using hnd) hOld (by intro f hf; simp [fvals] at hf)
    (by intro f hf; simp [uvals] at hf)
  unfold scanPost at hstB
  rw [← hstB] at hB
  obtain ⟨hB1, hB2, hOldB, hNewB, hUnB⟩ := hB
  dsimp only at hB1 hB2
  simp only [origsA_nil_eq, objsA_nil_eq, fvals_nil_eq, Multiset.coe_nil, add_zero,
    zero_add] at hB1 hB2
  have hR := renameFold_conserv P (makeNameMap stB.old_fis) (makeNameMap stB.new_fis)
    (Dict.keys (makeNameMap stB.new_fis)) ⟨stB.old_fis, stB.new_fis, []⟩ hOldB hNewB
  unfold renamePass at hrn
  dsimp only at hrn
  rw [← hrn] at hR
  obtain ⟨hR1, hR2, hOldR, hNewR⟩ := hR
  dsimp only at hR1 hR2
  simp only [origsA_nil_eq, objsA_nil_eq, Multiset.coe_nil, add_zero] at hR1 hR2
  have hI := inodeFold_conserv P (makeInodeMap rn.old_fis) (makeInodeMap rn.new_fis)
    (Dict.keys (makeInodeMap rn.new_fis)) ⟨rn.old_fis, rn.new_fis, stB.changed⟩ hOldR hNewR
  unfold inodePass at hino
  dsimp only at hino
  rw [← hino] at hI
  obtain ⟨hI1, hI2, hOldI, hNewI⟩ := hI
  dsimp only at hI1 hI2
  have hU := unallocFold_conserv P (Dict.keys stB.new_unalloc)
    ⟨ino.old_fis, oldU, stB.new_unalloc, ino.changed, stB.unchanged, []⟩
    hOldI hOU hUnB
  unfold unallocPass at hua
  rw [← hua] at hU
  obtain ⟨hU1, hU2, hOldU2, hOUU, hNUU⟩ := hU
  dsimp only at hU1 hU2
  simp only [origsA_nil_eq, objsA_nil_eq, Multiset.coe_nil, add_zero] at hU1 hU2
  constructor
  · rw [assemble_origsA P ino.new_fis ua.new_unalloc ua.old_fis ua.old_unalloc
      ua.deleted rn.renamed ua.changed ua.unchanged hOldU2 hOUU]
    calc (↑(origsA ua.deleted) + ↑(fvals ua.old_fis) + ↑(origsA rn.renamed) +
          ↑(origsA ua.changed) + ↑(origsA ua.unchanged) : Multiset FileObject)
        = (↑(fvals ua.old_fis) + ↑(origsA ua.changed) + ↑(origsA ua.unchanged) +
            ↑(origsA ua.deleted)) + ↑(origsA rn.renamed) := by abel
      _ = (↑(fvals ino.old_fis) + ↑(origsA ino.changed) + ↑(origsA stB.unchanged)) +
            ↑(origsA rn.renamed) := by rw [hU1]
      _ = (↑(fvals ino.old_fis) + ↑(origsA ino.changed)) + ↑(origsA stB.unchanged) +
            ↑(origsA rn.renamed) := by abel
      _ = (↑(fvals rn.old_fis) + ↑(origsA stB.changed)) + ↑(origsA stB.unchanged) +
            ↑(origsA rn.renamed) := by rw [hI1]
      _ = (↑(fvals rn.old_fis) + ↑(origsA rn.renamed)) +
            (↑(origsA stB.changed) + ↑(origsA stB.unchanged)) := by abel
      _ = ↑(fvals stB.old_fis) + (↑(origsA stB.changed) + ↑(origsA stB.unchanged)) := by
            rw [hR1]
      _ = ↑(fvals old0) := by rw [← add_assoc]; exact hB1
  · rw [assemble_objsA P ino.new_fis ua.new_unalloc ua.old_fis ua.old_unalloc
      ua.deleted rn.renamed ua.changed ua.unchanged hNewI hNUU]
    calc (↑(fvals ino.new_fis) + ↑(objsA ua.deleted) + ↑(objsA rn.renamed) +
          ↑(objsA ua.changed) + ↑(objsA ua.unchanged) : Multiset FileObject)
        = (↑(objsA ua.changed) + ↑(objsA ua.unchanged) + ↑(objsA ua.deleted)) +
            (↑(fvals ino.new_fis) + ↑(objsA rn.renamed)) := by abel
      _ = (↑(objsA ino.changed) + ↑(objsA stB.unchanged)) +
            (↑(fvals ino.new_fis) + ↑(objsA rn.renamed)) := by rw [hU2]
      _ = (↑(fvals ino.new_fis) + ↑(objsA ino.changed)) + ↑(objsA stB.unchanged) +
            ↑(objsA rn.renamed) := by abel
      _ = (↑(fvals rn.new_fis) + ↑(objsA stB.changed)) + ↑(objsA stB.unchanged) +
            ↑(objsA rn.renamed) := by rw [hI2]
      _ = (↑(fvals rn.new_fis) + ↑(objsA rn.renamed)) +
            (↑(objsA stB.changed) + ↑(objsA stB.unchanged)) := by abel
      _ = ↑(fvals stB.new_fis) + (↑(objsA stB.changed) + ↑(objsA stB.unchanged)) := by
            rw [hR2]
      _ = ↑(allocFiltered ignf post) := by
            rw [← hB2]
            abel

/-- C1 (amended): when identity keys are unique among each snapshot's
allocated, name-filtered records — the uniqueness assumption the program
itself warns about — and unchanged records are retained, the classification
sets written to the output form a partition of the allocated records at the
record level: the allocated originals carried by the whole output are a
permutation of the baseline's allocated records (each appears in exactly one
classification slot), and the allocated objects carried by the whole output
are a permutation of the second snapshot's allocated records. -/
theorem classification_partition_amended (ignf : Option String → Bool) (P : DiffParams)
    (pre post : List FileObject) (hret : P.retain_unchanged = true)
    (hndA : ((allocFiltered ignf pre).map (identityKey P.ignore_properties)).Nodup)
    (hndB : ((allocFiltered ignf post).map (identityKey P.ignore_properties)).Nodup) :
    (origsA (allEntries (make_differential_dfxml ignf P pre post))).Perm
      (allocFiltered ignf pre) ∧
    (objsA (allEntries (make_differential_dfxml ignf P pre post))).Perm
      (allocFiltered ignf post) := by
  have hfvA : fvals (scanPre P ignf pre).1 = allocFiltered ignf pre := by
    show fvals (pre.foldl (stepPre P ignf) ([], [])).1 = _
    rw [scanPre_fold_fis P ignf pre [] [] (by simpa using hndA)]
    simpa using fvals_pairing (identityKey P.ignore_properties) (allocFiltered ignf pre)
  have hallocA : allAlloc (fvals (scanPre P ignf pre).1) := by
    rw [hfvA]; exact allocFiltered_allAlloc ignf pre
  have hunU : allUnalloc (uvals (scanPre P ignf pre).2) := by
    show allUnalloc (uvals (pre.foldl (stepPre P ignf) ([], [])).2)
    exact scanPre_unalloc_allUnalloc P ignf pre [] [] (by intro f hf; simp [uvals] at hf)
  have h := passes_conserv P ignf hret (scanPre P ignf pre).1 (scanPre P ignf pre).2 post
    hndB hallocA hunU
    (scanPost P ignf (scanPre P ignf pre).1 post)
    (renamePass P (scanPost P ignf (scanPre P ignf pre).1 post).old_fis
      (scanPost P ignf (scanPre P ignf pre).1 post).new_fis)
    (inodePass P
      (renamePass P (scanPost P ignf (scanPre P ignf pre).1 post).old_fis
        (scanPost P ignf (scanPre P ignf pre).1 post).new_fis).old_fis
      (renamePass P (scanPost P ignf (scanPre P ignf pre).1 post).old_fis
        (scanPost P ignf (scanPre P ignf pre).1 post).new_fis).new_fis
      (scanPost P ignf (scanPre P ignf pre).1 post).changed)
    (unallocPass P
      (inodePass P
        (renamePass P (scanPost P ignf (scanPre P ignf pre).1 post).old_fis
          (scanPost P ignf (scanPre P ignf pre).1 post).new_fis).old_fis
        (renamePass P (scanPost P ignf (scanPre P ignf pre).1 post).old_fis
          (scanPost P ignf (scanPre P ignf pre).1 post).new_fis).new_fis
        (scanPost P ignf (scanPre P ignf pre).1 post).changed).old_fis
      (scanPre P ignf pre).2
      (scanPost P ignf (scanPre P ignf pre).1 post).new_unalloc
      (inodePass P
        (renamePass P (scanPost P ignf (scanPre P ignf pre).1 post).old_fis
          (scanPost P ignf (scanPre P ignf pre).1 post).new_fis).old_fis
        (renamePass P (scanPost P ignf (scanPre P ignf pre).1 post).old_fis
          (scanPost P ignf (scanPre P ignf pre).1 post).new_fis).new_fis
        (scanPost P ignf (scanPre P ignf pre).1 post).changed).changed
      (scanPost P ignf (scanPre P ignf pre).1 post).unchanged)
    rfl rfl rfl rfl
  rw [hfvA] at h
  exact ⟨Multiset.coe_eq_coe.mp h.1, Multiset.coe_eq_coe.mp h.2⟩

/-- C1 counterexample: with a duplicate identity key in the baseline (two
allocated records at partition 0, inode 5, name a.txt differing only in
mtime) and an empty second snapshot, the baseline record `exA` is silently
overwritten in the live map during the first scan and never reappears: it is
placed in none of the five classification sets — neither as an original nor
as an object — refuting joint exhaustiveness as claimed. -/
theorem partition_misses_record :
    exA ∈ allocFiltered ignorable_name [exA, exA_mtime] ∧
    (∀ e ∈ allEntries (make_differential_dfxml ignorable_name PallR [exA, exA_mtime] []),
      e.original ≠ some exA ∧ e.obj ≠ exA) := by
  refine ⟨by decide, by decide⟩

/-- Witness for the amended C1 theorem on a concrete pair of snapshots. -/
theorem classification_partition_amended_witness :
    PallR.retain_unchanged = true ∧
    ((allocFiltered ignorable_name [exA, exU]).map
      (identityKey PallR.ignore_properties)).Nodup ∧
    ((allocFiltered ignorable_name [exA_uid]).map
      (identityKey PallR.ignore_properties)).Nodup ∧
    ((origsA (allEntries (make_differential_dfxml ignorable_name PallR
        [exA, exU] [exA_uid]))).Perm (allocFiltered ignorable_name [exA, exU]) ∧
     (objsA (allEntries (make_differential_dfxml ignorable_name PallR
        [exA, exU] [exA_uid]))).Perm (allocFiltered ignorable_name [exA_uid])) :=
  ⟨by decide, by decide, by decide,
    classification_partition_amended ignorable_name PallR [exA, exU] [exA_uid]
      (by decide) (by decide) (by decide)⟩

/-! ## Claim C8: output annotations of matched pairs -/

theorem mem_dset {a s : String} {c : Prop} [Decidable c] :
    a ∈ dset c s ↔ c ∧ a = s := by
  unfold dset
  split
  · rename_i h
    simp [h]
  · rename_i h
    simp [h]

theorem annotateDeleted_annos (am : Bool) (e : OutFile) (h : e.annos = ∅) :
    ("modified" ∈ (annotateDeleted am e).annos ↔ content_diffs ∩ e.diffs ≠ ∅) ∧
    ("changed" ∈ (annotateDeleted am e).annos ↔ e.diffs \ content_diffs ≠ ∅) := by
  unfold annotateDeleted
  constructor <;> simp [h, mem_dset]

theorem annotateRenamed_annos (am : Bool) (e : OutFile) (h : e.annos = ∅) :
    ("modified" ∈ (annotateRenamed am e).annos ↔ content_diffs ∩ e.diffs ≠ ∅) ∧
    ("changed" ∈ (annotateRenamed am e).annos ↔ e.diffs \ content_diffs ≠ ∅) := by
  unfold annotateRenamed
  constructor <;> simp [h, mem_dset]

theorem annotateChanged_annos (am : Bool) (e : OutFile) (h : e.annos = ∅) :
    ("modified" ∈ (annotateChanged am e).annos ↔ content_diffs ∩ e.diffs ≠ ∅) ∧
    ("changed" ∈ (annotateChanged am e).annos ↔ e.diffs \ content_diffs ≠ ∅) := by
  unfold annotateChanged
  constructor <;> simp [h, mem_dset]

theorem stepPost_annosEmpty (P : DiffParams) (ignf : Option String → Bool)
    (st : StateB) (fo : FileObject)
    (hc : ∀ e ∈ st.changed, e.annos = ∅) (hu : ∀ e ∈ st.unchanged, e.annos = ∅) :
    (∀ e ∈ (stepPost P ignf st fo).changed, e.annos = ∅) ∧
    (∀ e ∈ (stepPost P ignf st fo).unchanged, e.annos = ∅) := by
  unfold stepPost
  dsimp only
  repeat' split
  all_goals
    refine ⟨fun e he => ?_, fun e he => ?_⟩ <;>
      first
        | exact hc e he
        | exact hu e he
        | { rcases List.mem_append.mp he with h1 | h1
            · first
                | exact hc e h1
                | exact hu e h1
            · rw [List.mem_singleton] at h1
              subst h1
              rfl }

theorem scanPost_annosEmpty (P : DiffParams) (ignf : Option String → Bool)
    (post : List FileObject) :
    ∀ (st : StateB),
    (∀ e ∈ st.changed, e.annos = ∅) → (∀ e ∈ st.unchanged, e.annos = ∅) →
    (∀ e ∈ (post.foldl (stepPost P ignf) st).changed, e.annos = ∅) ∧
    (∀ e ∈ (post.foldl (stepPost P ignf) st).unchanged, e.annos = ∅) := by
  induction post with
  | nil => exact fun st hc hu => ⟨hc, hu⟩
  | cons fo rest ih =>
    intro st hc hu
    obtain ⟨hc2, hu2⟩ := stepPost_annosEmpty P ignf st fo hc hu
    exact ih (stepPost P ignf st fo) hc2 hu2

theorem renameStep_annosEmpty (P : DiffParams)
    (om nm : Dict (Option Nat × Option Nat) (List (Option String)))
    (st : RenameState) (k : Option Nat × Option Nat)
    (hr : ∀ e ∈ st.renamed, e.annos = ∅) :
    ∀ e ∈ (renameStep P om nm st k).renamed, e.annos = ∅ := by
  unfold renameStep
  repeat' split
  all_goals
    intro e he
    first
      | exact hr e he
      | { rcases List.mem_append.mp he with h1 | h1
          · exact hr e h1
          · rw [List.mem_singleton] at h1
            subst h1
            rfl }

theorem renameFold_annosEmpty (P : DiffParams)
    (om nm : Dict (Option Nat × Option Nat) (List (Option String)))
    (ks : List (Option Nat × Option Nat)) :
    ∀ (st : RenameState), (∀ e ∈ st.renamed, e.annos = ∅) →
    ∀ e ∈ (ks.foldl (renameStep P om nm) st).renamed, e.annos = ∅ := by
  induction ks with
  | nil => exact fun st hr => hr
  | cons k rest ih =>
    intro st hr
    exact ih (renameStep P om nm st k) (renameStep_annosEmpty P om nm st k hr)

theorem inodeStep_annosEmpty (P : DiffParams)
    (om nm : Dict (Option Nat × Option String) (Option Nat))
    (st : InodeState) (k : Option Nat × Option String)
    (hc : ∀ e ∈ st.changed, e.annos = ∅) :
    ∀ e ∈ (inodeStep P om nm st k).changed, e.annos = ∅ := by
  unfold inodeStep
  repeat' split
  all_goals
    intro e he
    first
      | exact hc e he
      | { rcases List.mem_append.mp he with h1 | h1
          · exact hc e h1
          · rw [List.mem_singleton] at h1
            subst h1
            rfl }

theorem inodeFold_annosEmpty (P : DiffParams)
    (om nm : Dict (Option Nat × Option String) (Option Nat))
    (ks : List (Option Nat × Option String)) :
    ∀ (st : InodeState), (∀ e ∈ st.changed, e.annos = ∅) →
    ∀ e ∈ (ks.foldl (inodeStep P om nm) st).changed, e.annos = ∅ := by
  induction ks with
  | nil => exact fun st hc => hc
  | cons k rest ih =>
    intro st hc
    exact ih (inodeStep P om nm st k) (inodeStep_annosEmpty P om nm st k hc)

theorem unallocStep_annosEmpty (P : DiffParams) (st : UnallocState) (k : FKey)
    (hc : ∀ e ∈ st.changed, e.annos = ∅) (hu : ∀ e ∈ st.unchanged, e.annos = ∅)
    (hd : ∀ e ∈ st.deleted, e.annos = ∅) :
    (∀ e ∈ (unallocStep P st k).changed, e.annos = ∅) ∧
    (∀ e ∈ (unallocStep P st k).unchanged, e.annos = ∅) ∧
    (∀ e ∈ (unallocStep P st k).deleted, e.annos = ∅) := by
  unfold unallocStep
  dsimp only
  repeat' split
  all_goals
    refine ⟨fun e he => ?_, fun e he => ?_, fun e he => ?_⟩ <;>
      first
        | exact hc e he
        | exact hu e he
        | exact hd e he
        | { rcases List.mem_append.mp he with h1 | h1
            · first
                | exact hc e h1
                | exact hu e h1
                | exact hd e h1
            · rw [List.mem_singleton] at h1
              subst h1
              rfl }

theorem unallocFold_annosEmpty (P : DiffParams) (ks : List FKey) :
    ∀ (st : UnallocState),
    (∀ e ∈ st.changed, e.annos = ∅) → (∀ e ∈ st.unchanged, e.annos = ∅) →
    (∀ e ∈ st.deleted, e.annos = ∅) →
    (∀ e ∈ (ks.foldl (unallocStep P) st).changed, e.annos = ∅) ∧
    (∀ e ∈ (ks.foldl (unallocStep P) st).unchanged, e.annos = ∅) ∧
    (∀ e ∈ (ks.foldl (unallocStep P) st).deleted, e.annos = ∅) := by
  induction ks with
  | nil => exact fun st hc hu hd => ⟨hc, hu, hd⟩
  | cons k rest ih =>
    intro st hc hu hd
    obtain ⟨h1, h2, h3⟩ := unallocStep_annosEmpty P st k hc hu hd
    exact ih (unallocStep P st k) h1 h2 h3

theorem scanPostFull_annosEmpty (P : DiffParams) (ignf : Option String → Bool)
    (old_fis : Dict FKey FileObject) (post : List FileObject) :
    (∀ e ∈ (scanPost P ignf old_fis post).changed, e.annos = ∅) ∧
    (∀ e ∈ (scanPost P ignf old_fis post).unchanged, e.annos = ∅) := by
  unfold scanPost
  exact scanPost_annosEmpty P ignf post ⟨old_fis, [], [], [], []⟩
    (fun e he => absurd he (List.not_mem_nil e))
    (fun e he => absurd he (List.not_mem_nil e))

theorem renamePass_annosEmpty (P : DiffParams) (old_fis new_fis : Dict FKey FileObject) :
    ∀ e ∈ (renamePass P old_fis new_fis).renamed, e.annos = ∅ := by
  unfold renamePass
  exact renameFold_annosEmpty P _ _ _ ⟨old_fis, new_fis, []⟩
    (fun e he => absurd he (List.not_mem_nil e))

theorem inodePass_annosEmpty (P : DiffParams) (old_fis new_fis : Dict FKey FileObject)
    (changed : List OutFile) (hc : ∀ e ∈ changed, e.annos = ∅) :
    ∀ e ∈ (inodePass P old_fis new_fis changed).changed, e.annos = ∅ := by
  unfold inodePass
  exact inodeFold_annosEmpty P _ _ _ ⟨old_fis, new_fis, changed⟩ hc

theorem unallocPass_annosEmpty (P : DiffParams) (old_fis : Dict FKey FileObject)
    (old_unalloc new_unalloc : Dict FKey (List FileObject))
    (changed unchanged : List OutFile)
    (hc : ∀ e ∈ changed, e.annos = ∅) (hu : ∀ e ∈ unchanged, e.annos = ∅) :
    (∀ e ∈ (unallocPass P old_fis old_unalloc new_unalloc changed unchanged).changed,
      e.annos = ∅) ∧
    (∀ e ∈ (unallocPass P old_fis old_unalloc new_unalloc changed unchanged).unchanged,
      e.annos = ∅) ∧
    (∀ e ∈ (unallocPass P old_fis old_unalloc new_unalloc changed unchanged).deleted,
      e.annos = ∅) := by
  unfold unallocPass
  exact unallocFold_annosEmpty P _ ⟨old_fis, old_unalloc, new_unalloc, changed, unchanged, []⟩
    hc hu (fun e he => absurd he (List.not_mem_nil e))

theorem assemble_annotations (P : DiffParams) (new_fis : Dict FKey FileObject)
    (new_unalloc : Dict FKey (List FileObject)) (old_fis : Dict FKey FileObject)
    (old_unalloc : Dict FKey (List FileObject))
    (deletedL renamedL changedL unchangedL : List OutFile)
    (hd : ∀ e ∈ deletedL, e.annos = ∅) (hr : ∀ e ∈ renamedL, e.annos = ∅)
    (hc : ∀ e ∈ changedL, e.annos = ∅) (hu : ∀ e ∈ unchangedL, e.annos = ∅) :
    (∀ e ∈ (assemble P new_fis new_unalloc old_fis old_unalloc
              deletedL renamedL changedL unchangedL).deletedFiles ++
           (assemble P new_fis new_unalloc old_fis old_unalloc
              deletedL renamedL changedL unchangedL).renamedFiles ++
           (assemble P new_fis new_unalloc old_fis old_unalloc
              deletedL renamedL changedL unchangedL).changedFiles,
      ("modified" ∈ e.annos ↔ content_diffs ∩ e.diffs ≠ ∅) ∧
      ("changed" ∈ e.annos ↔ e.diffs \ content_diffs ≠ ∅)) ∧
    (∀ e ∈ (assemble P new_fis new_unalloc old_fis old_unalloc
              deletedL renamedL changedL unchangedL).unchangedFiles,
      "modified" ∉ e.annos ∧ "changed" ∉ e.annos) := by
  constructor
  · intro e he
    rcases List.mem_append.mp he with he1 | hec
    · rcases List.mem_append.mp he1 with hed | her
      · rcases List.mem_append.mp hed with hed1 | hed2
        · rcases List.mem_append.mp hed1 with hed3 | hed4
          · obtain ⟨x, hx, hfx⟩ := List.mem_map.mp hed3
            subst hfx
            exact annotateDeleted_annos P.annotate_matches x (hd x hx)
          · obtain ⟨kv, hkv, hfx⟩ := List.mem_map.mp hed4
            subst hfx
            constructor <;> simp [deletedPlaceholder]
        · obtain ⟨l2, hl2, he2⟩ := List.mem_flatten.mp hed2
          obtain ⟨kv, hkv, hfx⟩ := List.mem_map.mp hl2
          subst hfx
          obtain ⟨x, hx, hfx⟩ := List.mem_map.mp he2
          subst hfx
          constructor <;> simp [deletedPlaceholder]
      · obtain ⟨x, hx, hfx⟩ := List.mem_map.mp her
        subst hfx
        exact annotateRenamed_annos P.annotate_matches x (hr x hx)
    · obtain ⟨x, hx, hfx⟩ := List.mem_map.mp hec
      subst hfx
      exact annotateChanged_annos P.annotate_matches x (hc x hx)
  · intro e he
    obtain ⟨x, hx, hfx⟩ := List.mem_map.mp he
    subst hfx
    constructor <;> simp [hu x hx, mem_dset]

/-- C8 (amended): for every record placed in the output through the
deleted, renamed or changed lists, the modified annotation is present
exactly when the record's stored diff set — the populated diffs after
ignore-set subtraction, without mask filtering — contains a content-hash
attribute, and the changed annotation exactly when that stored set has an
attribute outside the content-hash set; retained unchanged records carry
neither annotation even when (under a mask) their stored diff set is
non-empty. -/
theorem annotations_from_stored_diffs (ignf : Option String → Bool) (P : DiffParams)
    (pre post : List FileObject) :
    (∀ e ∈ (make_differential_dfxml ignf P pre post).deletedFiles ++
           (make_differential_dfxml ignf P pre post).renamedFiles ++
           (make_differential_dfxml ignf P pre post).changedFiles,
      ("modified" ∈ e.annos ↔ content_diffs ∩ e.diffs ≠ ∅) ∧
      ("changed" ∈ e.annos ↔ e.diffs \ content_diffs ≠ ∅)) ∧
    (∀ e ∈ (make_differential_dfxml ignf P pre post).unchangedFiles,
      "modified" ∉ e.annos ∧ "changed" ∉ e.annos) := by
  refine assemble_annotations P _ _ _ _ _ _ _ _ ?_ ?_ ?_ ?_
  · exact (unallocPass_annosEmpty P _ _ _ _ _
      (inodePass_annosEmpty P _ _ _ (scanPostFull_annosEmpty P ignf _ post).1)
      (scanPostFull_annosEmpty P ignf _ post).2).2.2
  · exact renamePass_annosEmpty P _ _
  · exact (unallocPass_annosEmpty P _ _ _ _ _
      (inodePass_annosEmpty P _ _ _ (scanPostFull_annosEmpty P ignf _ post).1)
      (scanPostFull_annosEmpty P ignf _ post).2).1
  · exact (unallocPass_annosEmpty P _ _ _ _ _
      (inodePass_annosEmpty P _ _ _ (scanPostFull_annosEmpty P ignf _ post).1)
      (scanPostFull_annosEmpty P ignf _ post).2).2.1

/-- C8 counterexample: under `diff_mode = idifference` a pair differing in
`mtime` and `sha256` is classified changed through the mask, but the
modified annotation is driven by the unmasked stored diff set: the output
record carries the modified annotation although the claim's effective diff
(`{mtime}`) contains no content-hash attribute. -/
theorem annotation_uses_unmasked_diffs :
    ((make_differential_dfxml ignorable_name Pidiff [exA] [exA_mtime_sha256]).changedFiles.map
      (fun e => decide ("modified" ∈ e.annos))) = [true] ∧
    specEffectiveDiff (compareToOriginal exA exA_mtime_sha256 ∅) ∅
        (diffMaskSet "idifference") ∩ content_diffs = ∅ := by
  refine ⟨by decide, by decide⟩

/-- Witness for the amended C8 theorem at the concrete mask run. -/
theorem annotations_from_stored_diffs_witness :
    "modified" ∈ ((make_differential_dfxml ignorable_name Pidiff [exA]
        [exA_mtime_sha256]).changedFiles.headI).annos ↔
      content_diffs ∩ ((make_differential_dfxml ignorable_name Pidiff [exA]
        [exA_mtime_sha256]).changedFiles.headI).diffs ≠ ∅ :=
  ((annotations_from_stored_diffs ignorable_name Pidiff [exA] [exA_mtime_sha256]).1
    ((make_differential_dfxml ignorable_name Pidiff [exA] [exA_mtime_sha256]).changedFiles.headI)
    (by decide)).1

/-! ## Claim C6: deletion-from-unallocated detection -/

theorem unallocStep_deleted_grows (P : DiffParams) (st : UnallocState) (k : FKey) :
    ∃ l, (unallocStep P st k).deleted = st.deleted ++ l := by
  unfold unallocStep
  dsimp only
  repeat' split
  all_goals first
    | exact ⟨_, rfl⟩
    | exact ⟨[], (List.append_nil _).symm⟩

theorem unallocFold_deleted_mono (P : DiffParams) (ks : List FKey) :
    ∀ (st : UnallocState) (e : OutFile), e ∈ st.deleted →
    e ∈ (ks.foldl (unallocStep P) st).deleted := by
  induction ks with
  | nil => exact fun st e he => he
  | cons k rest ih =>
    intro st e he
    refine ih (unallocStep P st k) e ?_
    obtain ⟨l, hl⟩ := unallocStep_deleted_grows P st k
    rw [hl]
    exact List.mem_append_left l he

theorem unallocStep_preserves_other (P : DiffParams) (st : UnallocState) {k key : FKey}
    (hne : k ≠ key) :
    Dict.get? (unallocStep P st k).new_unalloc key = Dict.get? st.new_unalloc key ∧
    Dict.get? (unallocStep P st k).old_unalloc key = Dict.get? st.old_unalloc key ∧
    Dict.get? (unallocStep P st k).old_fis key = Dict.get? st.old_fis key := by
  unfold unallocStep
  dsimp only
  repeat' split
  all_goals
    simp only [Dict.get?_set_ne _ _ hne, Dict.get?_erase_ne _ hne, and_self]

theorem unallocFold_deletion (P : DiffParams) (ks : List FKey) :
    ∀ (st : UnallocState) (key : FKey) (nobj ofobj : FileObject),
    key ∈ ks → ks.Nodup →
    Dict.get? st.new_unalloc key = some [nobj] →
    Dict.get? st.old_unalloc key = none →
    Dict.get? st.old_fis key = some ofobj →
    matchedEntry P ofobj nobj ∈ (ks.foldl (unallocStep P) st).deleted := by
  induction ks with
  | nil => intro st key nobj ofobj hmem; exact absurd hmem (List.not_mem_nil key)
  | cons k rest ih =>
    intro st key nobj ofobj hmem hnd hnew hold hfis
    by_cases hk : k = key
    · subst hk
      have hstep : (unallocStep P st k).deleted = st.deleted ++ [matchedEntry P ofobj nobj] := by
        unfold unallocStep
        rw [hnew, hold, hfis]
        rfl
      refine unallocFold_deleted_mono P rest (unallocStep P st k) _ ?_
      rw [hstep]
      exact List.mem_append_right _ (List.mem_singleton_self _)
    · have hmem' : key ∈ rest := by
        rcases List.mem_cons.mp hmem with h | h
        · exact absurd h.symm hk
        · exact h
      obtain ⟨h1, h2, h3⟩ := unallocStep_preserves_other P st hk
      exact ih (unallocStep P st k) key nobj ofobj hmem' (List.Nodup.of_cons hnd)
        (h1.trans hnew) (h2.trans hold) (h3.trans hfis)

/-- C6 (amended): a remaining single-observation unallocated record in the
second snapshot is paired with a surviving live baseline record and
classified deleted exactly under one further condition the claim omits:
its identity key must be absent from the baseline unalloc map (the source
reaches the deletion branch only through the `elif`, so a key that is
present in the baseline unalloc map with other than one observation is
skipped entirely, never deletion-matched). -/
theorem deletion_from_unalloc_amended
    (P : DiffParams) (old_fis : Dict FKey FileObject)
    (old_unalloc new_unalloc : Dict FKey (List FileObject))
    (changed unchanged : List OutFile) (key : FKey) (nobj ofobj : FileObject)
    (hnd : (Dict.keys new_unalloc).Nodup)
    (hnew : Dict.get? new_unalloc key = some [nobj])
    (hold : Dict.get? old_unalloc key = none)
    (hfis : Dict.get? old_fis key = some ofobj) :
    matchedEntry P ofobj nobj ∈
      (unallocPass P old_fis old_unalloc new_unalloc changed unchanged).deleted := by
  unfold unallocPass
  exact unallocFold_deletion P (Dict.keys new_unalloc)
    ⟨old_fis, old_unalloc, new_unalloc, changed, unchanged, []⟩ key nobj ofobj
    (Dict.mem_keys_of_get?_eq_some hnew) hnd hnew hold hfis

/-- C6 counterexample: a second-snapshot unallocated record whose key has
exactly one observation in B and still exists in A's surviving live map,
yet is never paired or classified deleted, because the key is also in A's
unalloc map (with two observations).  The unalloc pass produces no deleted
pairing, and the full run classifies the B record new. -/
theorem deletion_from_unalloc_missed :
    Dict.get? [(((some 0, some 7, some "k") : FKey), [exKuB])]
        (some 0, some 7, some "k") = some [exKuB] ∧
    Dict.get? [(((some 0, some 7, some "k") : FKey), exK)]
        (some 0, some 7, some "k") = some exK ∧
    (unallocPass Pall [((some 0, some 7, some "k"), exK)]
        [((some 0, some 7, some "k"), [exKu1, exKu2])]
        [((some 0, some 7, some "k"), [exKuB])] [] []).deleted = [] ∧
    (make_differential_dfxml ignorable_name Pall
        [exK, exKu1, exKu2] [exKuB]).newFiles.map (fun e => e.obj) = [exKuB] := by
  refine ⟨by decide, by decide, by decide, by decide⟩

/-- Witness for the amended C6 theorem at a concrete state. -/
theorem deletion_from_unalloc_amended_witness :
    matchedEntry Pall exK exKuB ∈
      (unallocPass Pall [((some 0, some 7, some "k"), exK)] []
        [((some 0, some 7, some "k"), [exKuB])] [] []).deleted :=
  deletion_from_unalloc_amended Pall _ _ _ [] [] (some 0, some 7, some "k") exKuB exK
    (by decide) (by decide) (by decide) (by decide)

/-- Witness for C4: applying the direct-lookup theorem at a concrete hit
whose filtered diff is non-empty. -/
theorem direct_lookup_classification_witness :
    stepPost Pall ignorable_name
        ⟨[(identityKey Pall.ignore_properties exA_uid, exA)], [], [], [], []⟩ exA_uid =
      ⟨Dict.erase [(identityKey Pall.ignore_properties exA_uid, exA)]
          (identityKey Pall.ignore_properties exA_uid), [], [],
        [matchedEntry Pall exA exA_uid], []⟩ :=
  (direct_lookup_classification.1 Pall ignorable_name
      ⟨[(identityKey Pall.ignore_properties exA_uid, exA)], [], [], [], []⟩ exA_uid exA
      (by decide) (by decide) (by decide)).1 (by decide)

end DFXMLDiff
